import Mathlib

/-!
Verification of wad2pic (`src/wad2pic.py`), a tool that renders an isometric
image of a Doom level from a WAD file.  The definitions below are a shallow
embedding of the Python functions that the verified claims are about:
Python integers are modelled by `ℤ`/`ℕ`, byte strings by `List ℕ`,
pixel rasters by total functions `ℤ × ℤ → _` (the code only ever reads and
writes in-bounds coordinates, which the theorems track explicitly), and
fallible code (code that can raise) by `Option`.
-/

namespace Wad2Pic

/-- An RGB pixel value, as the 3-tuples used by the Python code. -/
abbrev RGB := ℕ × ℕ × ℕ

/-- A pixel coordinate on a raster. -/
abbrev Pos := ℤ × ℤ

/-! ### Sprite rotation index (`parseThings`, line 1511)

`angle = (14 - thing.angle//45) % 8 + 1`.  Python `//` is floor division
and `%` is floor modulus, which on `ℤ` are `Int.fdiv` and `Int.fmod`. -/

/-- The sprite rotation index computed in `parseThings` from a thing's
facing angle: `(14 - thing.angle//45) % 8 + 1`. -/
def spriteRotationIndex (angle : ℤ) : ℤ :=
  (14 - Int.fdiv angle 45).fmod 8 + 1

/-! ### Gamma correction (`gammaCorrection`, lines 1691-1708)

Per pixel: channels of a pure-black (RGB `(0,0,0)`) pixel are left alone;
otherwise each channel becomes `int((data/255) ** gamma * 255)`.
The Python code computes in IEEE binary64; for `gamma = 1` the float
computation `(d/255) ** 1.0 * 255` is exact (it returns the real value `d`
for every byte `d`), so the exact rational model below coincides with the
code on the whole input range used by the claim. `int(...)` on the
non-negative values produced here is truncation toward zero = floor. -/

/-- One channel of gamma correction: `int((data/255) ** gamma * 255)`,
with the arithmetic in exact rationals and the exponent restricted to the
naturals (the claim only evaluates it at `gamma = 1`). -/
def gammaChannel (gamma : ℕ) (data : ℕ) : ℕ :=
  (Int.floor (((data : ℚ) / 255) ^ gamma * 255)).toNat

/-- One pixel of the gamma pass, over an arbitrary per-channel transform
`t`: pure black is skipped (the `continue` runs before any arithmetic,
whatever the gamma amount), otherwise every channel goes through `t`. -/
def gammaPassPixel (t : ℕ → ℕ) (p : RGB) : RGB :=
  if p = (0, 0, 0) then p
  else (t p.1, t p.2.1, t p.2.2)

/-- One pixel of `gammaCorrection`: the gamma pass with the
`(input/255)^gamma * 255` channel transform. -/
def gammaCorrectionPixel (gamma : ℕ) (p : RGB) : RGB :=
  gammaPassPixel (gammaChannel gamma) p

/-- The function `gammaCorrection` maps `gammaCorrectionPixel` over every pixel of the
image (the Python loop writes each pixel in place from its own old value
only, so the in-place loop is a pointwise map). -/
def gammaCorrection (gamma : ℕ) (im : Pos → RGB) : Pos → RGB :=
  fun q => gammaCorrectionPixel gamma (im q)

/-! ### Palette snapping (`palletizePic`, lines 819-870) -/

/-- The per-channel absolute difference sum minimised by `closestPix`. -/
def pixDistance (p q : RGB) : ℕ :=
  ((p.1 : ℤ) - q.1).natAbs + ((p.2.1 : ℤ) - q.2.1).natAbs +
    ((p.2.2 : ℤ) - q.2.2).natAbs

/-- The scan loop of `closestPix`: walk the palette keeping the entry with
the least distance seen so far (strict `<`, so the first minimiser wins). -/
def closestPixLoop (pixel : RGB) : List RGB → RGB × ℕ → RGB × ℕ
  | [], acc => acc
  | pal :: rest, (closest, minDistance) =>
      if pixDistance pixel pal < minDistance then
        closestPixLoop pixel rest (pal, pixDistance pixel pal)
      else
        closestPixLoop pixel rest (closest, minDistance)

/-- The `closestPix`: nearest palette entry by `pixDistance`, starting from the
sentinel accumulator `((0,0,0), 256 * 4)` as in the source. -/
def closestPix (pixel : RGB) (pallete : List RGB) : RGB :=
  (closestPixLoop pixel pallete ((0, 0, 0), 256 * 4)).1

/-- One pixel of `palletizePic`: transparency is binarised (255 when the
source pixel has no alpha channel), and the RGB part is kept verbatim when
it is already a palette entry, else snapped with `closestPix`. -/
def palletizePixel (pallete : List RGB) (rgb : RGB) (alpha : Option ℕ) : RGB × ℕ :=
  let transparency : ℕ :=
    match alpha with
    | none => 255
    | some a => if a < 128 then 0 else 255
  if rgb ∈ pallete then (rgb, transparency)
  else (closestPix rgb pallete, transparency)

/-! ### Lumps and the geometry loaders (`Lump`, lines 123-154; loaders 498-661)

A lump holds immutable byte data and a read position; `read` returns the
requested slice clamped to the end of the data, exactly as the Python
`Lump.read`.  An absent lump is `Option.none`; a loader that would raise on
an absent lump (attribute access on `None`) is modelled as returning
`none`, while the loaders guarded by `if lump is None: return []` return
`some []`. -/

structure Lump where
  data : List ℕ
  pos : ℕ
deriving Repr, DecidableEq

/-- The `Lump.length` as in the source: the total byte length of the data. -/
def Lump.length (l : Lump) : ℕ := l.data.length

/-- The `Lump.read`: return `nBytes` from the current position (clamped to the
end of the data) and advance the position. -/
def Lump.read (l : Lump) (nBytes : ℕ) : List ℕ × Lump :=
  let newPosition := min (l.pos + nBytes) l.data.length
  ((l.data.drop l.pos).take (newPosition - l.pos), { l with pos := newPosition })

/-- Little-endian value of a byte list (`int.from_bytes(_, "little")`). -/
def bytesToNatLE : List ℕ → ℕ
  | [] => 0
  | b :: rest => b + 256 * bytesToNatLE rest

/-- The `int.from_bytes(bs, "little", signed=...)`: two's-complement signed
interpretation when `signed` is set.  Reading zero bytes yields 0. -/
def intFromBytesLE (bs : List ℕ) (signed : Bool) : ℤ :=
  let u := bytesToNatLE bs
  if signed = true ∧ 2 ^ (8 * bs.length - 1) ≤ u then
    (u : ℤ) - 2 ^ (8 * bs.length)
  else u

/-- The `trailingZeros` (lines 91-100): once a `\x00` byte is seen, every later
byte is replaced by `\x00`. -/
def trailingZeros : List ℕ → List ℕ
  | [] => []
  | c :: rest =>
      if c = 0 then 0 :: List.replicate rest.length 0
      else c :: trailingZeros rest

/-- ASCII uppercasing of one byte (`str.upper` on the names the program
compares; all names the claims touch are ASCII). -/
def byteUpper (b : ℕ) : ℕ := if 97 ≤ b ∧ b ≤ 122 then b - 32 else b

/-- Read one 8-byte name: `trailingZeros(lump.read(8).decode(...).upper())`. -/
def Lump.readName (l : Lump) : List ℕ × Lump :=
  let (bs, l') := l.read 8
  (trailingZeros (bs.map byteUpper), l')

/-- A map vertex (`class Vertex`). -/
structure Vertex where
  x : ℤ
  y : ℤ
deriving Repr, DecidableEq

/-- A linedef (`class LineDef`); `ende` is the source's `end` field. -/
structure LineDef where
  beg : ℕ
  ende : ℕ
  front : ℕ
  back : ℕ
  topUnpegged : ℕ
  bottomUnpegged : ℕ
deriving Repr, DecidableEq

/-- A sidedef (`class SideDef`); texture names as (uppercased) byte lists. -/
structure SideDef where
  xOffset : ℤ
  yOffset : ℤ
  upper : List ℕ
  lower : List ℕ
  middle : List ℕ
  sector : ℕ
deriving Repr, DecidableEq

/-- A sector (`class Sector`), the WAD-resident fields only; the derived
`listOfVerteces`/`HOMpassed` state is computed by `checkHOMSector` below. -/
structure Sector where
  floorHeight : ℤ
  ceilingHeight : ℤ
  floorTexture : List ℕ
  ceilingTexture : List ℕ
  light : ℤ
deriving Repr, DecidableEq

/-- A thing (`class Thing`), the WAD-resident fields. -/
structure Thing where
  x : ℤ
  y : ℤ
  angle : ℤ
  type : ℤ
  options : ℤ
deriving Repr, DecidableEq

/-- Loop of `getVertixes`: each record reads x then y as signed 16-bit,
with y negated. -/
def getVertixesLoop : ℕ → Lump → List Vertex
  | 0, _ => []
  | n + 1, l =>
      let (bx, l1) := l.read 2
      let (by2, l2) := l1.read 2
      { x := intFromBytesLE bx true, y := - intFromBytesLE by2 true } ::
        getVertixesLoop n l2

/-- The `getVertixes` (lines 498-514).  NOTE: unlike the other four loaders it
has no `if lump is None: return []` guard, so on an absent lump the
attribute access `lump.length` raises; that failure is `none` here. -/
def getVertixes (lump : Option Lump) : Option (List Vertex) :=
  match lump with
  | none => none
  | some l => some (getVertixesLoop (l.length / 4) l)

/-- Loop of `getLineDefs`. -/
def getLineDefsLoop (zStyle : Bool) : ℕ → Lump → List LineDef
  | 0, _ => []
  | n + 1, l =>
      let (bbeg, l1) := l.read 2
      let (bend, l2) := l1.read 2
      let (bflags, l3) := l2.read 2
      let flags := bytesToNatLE bflags
      let (_, l4) := l3.read 4
      let (_, l5) := if zStyle then l4.read 2 else ([], l4)
      let (bfront, l6) := l5.read 2
      let (bback, l7) := l6.read 2
      { beg := bytesToNatLE bbeg, ende := bytesToNatLE bend,
        front := bytesToNatLE bfront, back := bytesToNatLE bback,
        topUnpegged := (flags &&& 8) / 8,
        bottomUnpegged := (flags &&& 16) / 16 } ::
        getLineDefsLoop zStyle n l7

/-- The `getLineDefs` (lines 517-552): absent lump yields the empty list. -/
def getLineDefs (lump : Option Lump) (zStyle : Bool) : Option (List LineDef) :=
  match lump with
  | none => some []
  | some l =>
      some (getLineDefsLoop zStyle (l.length / (if zStyle then 16 else 14)) l)

/-- Loop of `getSideDefs`. -/
def getSideDefsLoop : ℕ → Lump → List SideDef
  | 0, _ => []
  | n + 1, l =>
      let (bx, l1) := l.read 2
      let (by2, l2) := l1.read 2
      let (upper, l3) := l2.readName
      let (lower, l4) := l3.readName
      let (middle, l5) := l4.readName
      let (bsec, l6) := l5.read 2
      { xOffset := intFromBytesLE bx true, yOffset := intFromBytesLE by2 true,
        upper := upper, lower := lower, middle := middle,
        sector := bytesToNatLE bsec } ::
        getSideDefsLoop n l6

/-- The `getSideDefs` (lines 555-586): absent lump yields the empty list. -/
def getSideDefs (lump : Option Lump) : Option (List SideDef) :=
  match lump with
  | none => some []
  | some l => some (getSideDefsLoop (l.length / 30) l)

/-- Loop of `getSectors`; the light level is clamped to 0-255. -/
def getSectorsLoop : ℕ → Lump → List Sector
  | 0, _ => []
  | n + 1, l =>
      let (bfh, l1) := l.read 2
      let (bch, l2) := l1.read 2
      let (ftex, l3) := l2.readName
      let (ctex, l4) := l3.readName
      let (blight, l5) := l4.read 2
      let light0 := intFromBytesLE blight true
      let (_, l6) := l5.read 4
      { floorHeight := intFromBytesLE bfh true,
        ceilingHeight := intFromBytesLE bch true,
        floorTexture := ftex, ceilingTexture := ctex,
        light := max (min light0 255) 0 } ::
        getSectorsLoop n l6

/-- The `getSectors` (lines 589-617): absent lump yields the empty list. -/
def getSectors (lump : Option Lump) : Option (List Sector) :=
  match lump with
  | none => some []
  | some l => some (getSectorsLoop (l.length / 26) l)

/-- Loop of `getThings` (both the legacy and the zStyle record layout). -/
def getThingsLoop (zStyle : Bool) : ℕ → Lump → List Thing
  | 0, _ => []
  | n + 1, l =>
      if zStyle then
        let (_, l0) := l.read 2
        let (bx, l1) := l0.read 2
        let (by2, l2) := l1.read 2
        let (_, l3) := l2.read 2
        let (bangle, l4) := l3.read 2
        let (btype, l5) := l4.read 2
        let (bopts, l6) := l5.read 2
        let (_, l7) := l6.read 6
        { x := intFromBytesLE bx true, y := - intFromBytesLE by2 true,
          angle := intFromBytesLE bangle true,
          type := intFromBytesLE btype true,
          options := intFromBytesLE bopts true } ::
          getThingsLoop zStyle n l7
      else
        let (bx, l1) := l.read 2
        let (by2, l2) := l1.read 2
        let (bangle, l3) := l2.read 2
        let (btype, l4) := l3.read 2
        let (bopts, l5) := l4.read 2
        { x := intFromBytesLE bx true, y := - intFromBytesLE by2 true,
          angle := intFromBytesLE bangle true,
          type := intFromBytesLE btype true,
          options := intFromBytesLE bopts true } ::
          getThingsLoop zStyle n l5

/-- The `getThings` (lines 620-661): absent lump yields the empty list. -/
def getThings (lump : Option Lump) (zStyle : Bool) : Option (List Thing) :=
  match lump with
  | none => some []
  | some l =>
      some (getThingsLoop zStyle (l.length / (if zStyle then 20 else 10)) l)

/-! ### Wall synthesis (`genWalls`, lines 1251-1389)

`genWalls` iterates over the linedefs and, for each one, appends the walls
it generates to a distance-keyed dictionary.  The claims are about the
wall records generated per linedef, so the embedding below
(`wallsForLinedef`) returns that per-linedef list; the floating-point
distance key, which the claims do not touch, is not modelled.  Guarded
list accesses (`sidedefs[i]` under an `i < len(sidedefs)` test, vertex
accesses under the `continue` guard) are `List.getD`; the unguarded
`sectors[...]` accesses, which raise on an out-of-range index, make the
result an `Option`. -/

/-- The 8-byte "no texture" name `"-"` (a dash plus zero padding). -/
def dashName : List ℕ := [45, 0, 0, 0, 0, 0, 0, 0]

/-- The byte string `"F_SKY1"`. -/
def fSky1 : List ℕ := [70, 95, 83, 75, 89, 49]

/-- Python's substring test `needle in hay` on byte strings. -/
def listHasSub (needle : List ℕ) : List ℕ → Bool
  | [] => needle.isEmpty
  | b :: rest => List.isPrefixOf needle (b :: rest) || listHasSub needle rest

/-- A drawable wall record (`class Wall`). -/
structure Wall where
  sx : ℤ
  sy : ℤ
  ex : ℤ
  ey : ℤ
  floor : ℤ
  ceiling : ℤ
  texture : List ℕ
  xOffset : ℤ
  yOffset : ℤ
  fromTop : Bool
  position : String
  light : ℤ
  isBack : Bool
deriving Repr, DecidableEq

/-- Default vertex used under an in-bounds guard. -/
def dVertex : Vertex := { x := 0, y := 0 }

/-- Default sidedef used under an in-bounds guard. -/
def dSideDef : SideDef :=
  { xOffset := 0, yOffset := 0, upper := [], lower := [], middle := [], sector := 0 }

/-- Default sector (never reached by the theorems, which carry in-bounds
hypotheses for every `sectors[...]` access). -/
def dSector : Sector :=
  { floorHeight := 0, ceilingHeight := 0, floorTexture := [],
    ceilingTexture := [], light := 0 }

/-- The walls `genWalls` generates for one linedef, in generation order:
the middle part ("mid" pair or "proper"), then the "bottom" part, then the
"top" part.  `none` models the `IndexError` of an out-of-range
`sectors[...]` access. -/
def wallsForLinedef (vertexes : List Vertex) (sidedefs : List SideDef)
    (sectors : List Sector) (ld : LineDef) : Option (List Wall) :=
  if vertexes.length ≤ ld.beg ∨ vertexes.length ≤ ld.ende then some []
  else
    let start := vertexes.getD ld.beg dVertex
    let en := vertexes.getD ld.ende dVertex
    let fsd := sidedefs.getD ld.front dSideDef
    let bsd := sidedefs.getD ld.back dSideDef
    -- Middle part (wall proper), lines 1275-1320
    let midPart : Option (List Wall) :=
      if ld.front < sidedefs.length ∧ fsd.middle ≠ dashName then
        match sectors[fsd.sector]? with
        | none => none
        | some fsec =>
          if ld.back < sidedefs.length ∧ ld.back ≠ 65535 then
            match sectors[bsd.sector]? with
            | none => none
            | some bsec =>
                let floor := max fsec.floorHeight bsec.floorHeight
                let ceiling := min fsec.ceilingHeight bsec.ceilingHeight
                some
                  [{ sx := start.x, sy := start.y, ex := en.x, ey := en.y,
                     floor := floor, ceiling := ceiling, texture := fsd.middle,
                     xOffset := fsd.xOffset, yOffset := fsd.yOffset,
                     fromTop := false, position := "mid",
                     light := fsec.light, isBack := false },
                   { sx := en.x, sy := en.y, ex := start.x, ey := start.y,
                     floor := floor, ceiling := ceiling, texture := bsd.middle,
                     xOffset := bsd.xOffset, yOffset := bsd.yOffset,
                     fromTop := false, position := "mid",
                     light := bsec.light, isBack := false }]
          else
            some
              [{ sx := start.x, sy := start.y, ex := en.x, ey := en.y,
                 floor := fsec.floorHeight, ceiling := fsec.ceilingHeight,
                 texture := fsd.middle,
                 xOffset := fsd.xOffset, yOffset := fsd.yOffset,
                 fromTop := true, position := "proper",
                 light := fsec.light, isBack := false }]
      else some []
    -- Bottom and top parts, lines 1323-1387
    let botTopPart : Option (List Wall) :=
      if ld.front < sidedefs.length ∧ ld.back < sidedefs.length ∧ ld.back ≠ 65535 then
        match sectors[fsd.sector]?, sectors[bsd.sector]? with
        | some fsec, some bsec =>
            let isSky := listHasSub fSky1 bsec.ceilingTexture &&
              listHasSub fSky1 fsec.ceilingTexture
            let bottomRes : List Wall × Bool :=
              if fsec.floorHeight ≠ bsec.floorHeight then
                let fromTop := ld.bottomUnpegged == 0
                let top := max fsec.floorHeight bsec.floorHeight
                let bottom := min fsec.floorHeight bsec.floorHeight
                if bottom = fsec.floorHeight then
                  ([{ sx := start.x, sy := start.y, ex := en.x, ey := en.y,
                      floor := bottom, ceiling := top, texture := fsd.lower,
                      xOffset := fsd.xOffset, yOffset := fsd.yOffset,
                      fromTop := fromTop, position := "bottom",
                      light := fsec.light, isBack := false }], false)
                else
                  ([{ sx := start.x, sy := start.y, ex := en.x, ey := en.y,
                      floor := bottom, ceiling := top, texture := bsd.lower,
                      xOffset := bsd.xOffset, yOffset := bsd.yOffset,
                      fromTop := fromTop, position := "bottom",
                      light := bsec.light, isBack := true }], true)
              else ([], false)
            let topWalls : List Wall :=
              if fsec.ceilingHeight ≠ bsec.ceilingHeight then
                if isSky = false then
                  let fromTop := ld.topUnpegged == 1
                  let top := max fsec.ceilingHeight bsec.ceilingHeight
                  let bottom := min fsec.ceilingHeight bsec.ceilingHeight
                  if top = fsec.ceilingHeight then
                    [{ sx := start.x, sy := start.y, ex := en.x, ey := en.y,
                       floor := bottom, ceiling := top, texture := fsd.upper,
                       xOffset := fsd.xOffset, yOffset := fsd.yOffset,
                       fromTop := fromTop, position := "top",
                       light := fsec.light, isBack := bottomRes.2 }]
                  else
                    [{ sx := start.x, sy := start.y, ex := en.x, ey := en.y,
                       floor := bottom, ceiling := top, texture := bsd.upper,
                       xOffset := bsd.xOffset, yOffset := bsd.yOffset,
                       fromTop := fromTop, position := "top",
                       light := bsec.light, isBack := true }]
                else []
              else []
            some (bottomRes.1 ++ topWalls)
        | _, _ => none
      else some []
    match midPart, botTopPart with
    | some a, some b => some (a ++ b)
    | _, _ => none

/-! ### Sector validity (`checkHOM`, lines 1217-1248) and flood-fill
call selection (`drawMap`, lines 2122-2145)

`checkHOM` first gathers, for every sector, the vertex indices of all
linedef sides facing it (two per side, with multiplicity), then marks the
sector invalid when the list has fewer than 6 entries or the in-range
vertices span less than 2 units in either axis.  `drawMap` starts a flood
fill only for sides whose sector passed the check and whose
`findFloodPoint` did not return the problem sentinel.  The embedding
computes the per-sector list functionally; the theorems carry the
in-bounds hypotheses under which the Python attribute writes are safe. -/

/-- The `listOfVerteces` accumulated for sector `secIdx` by the first loop
of `checkHOM`: both endpoints of every linedef side facing the sector. -/
def sectorVertexList (linedefs : List LineDef) (sidedefs : List SideDef)
    (secIdx : ℕ) : List ℕ :=
  linedefs.flatMap fun ld =>
    [ld.front, ld.back].flatMap fun sd =>
      if sd ≠ 65535 ∧ sd < sidedefs.length ∧
          (sidedefs.getD sd dSideDef).sector = secIdx then
        [ld.beg, ld.ende]
      else []

/-- The x coordinates collected by check #2 of `checkHOM` (in-range
vertex indices only). -/
def sectorXs (vertexes : List Vertex) (lv : List ℕ) : List ℤ :=
  lv.filterMap fun v =>
    if v < vertexes.length then some (vertexes.getD v dVertex).x else none

/-- The y coordinates collected by check #2 of `checkHOM`. -/
def sectorYs (vertexes : List Vertex) (lv : List ℕ) : List ℤ :=
  lv.filterMap fun v =>
    if v < vertexes.length then some (vertexes.getD v dVertex).y else none

/-- The `max(l) - min(l)` of a nonempty list (0 on the empty list, which the
caller rules out first, as the source does via `len(xs) == 0`). -/
def spanOf : List ℤ → ℤ
  | [] => 0
  | x0 :: xr => xr.foldl max x0 - xr.foldl min x0

/-- The `HOMpassed` flag of sector `secIdx` after `checkHOM`: `false` iff
the bounding list has fewer than 6 entries (check #1) or there are no
in-range bounding vertices or they span `< 2` in either axis (check #2). -/
def checkHOMSector (vertexes : List Vertex) (linedefs : List LineDef)
    (sidedefs : List SideDef) (secIdx : ℕ) : Bool :=
  let lv := sectorVertexList linedefs sidedefs secIdx
  if lv.length < 6 then false
  else
    let xs := sectorXs vertexes lv
    let ys := sectorYs vertexes lv
    if xs.length = 0 then false
    else if spanOf xs < 2 ∨ spanOf ys < 2 then false
    else true

/-- The `findFloodPoint` (lines 1592-1637): the midpoint of the linedef moved
one pixel to the requested side, or the `(-1000000, -1000000)` problem
sentinel for an out-of-range or too-short linedef.  Python `//` is
`Int.fdiv`. -/
def findFloodPoint (ld : LineDef) (vertexes : List Vertex) (right : Bool) :
    ℤ × ℤ :=
  if vertexes.length ≤ ld.beg ∨ vertexes.length ≤ ld.ende then
    (-1000000, -1000000)
  else
    let x1 := (vertexes.getD ld.beg dVertex).x
    let y1 := (vertexes.getD ld.beg dVertex).y
    let x2 := (vertexes.getD ld.ende dVertex).x
    let y2 := (vertexes.getD ld.ende dVertex).y
    let x := (x1 + x2).fdiv 2
    let y := (y1 + y2).fdiv 2
    if |x2 - x1| ≤ 2 ∧ |y2 - y1| ≤ 2 then (-1000000, -1000000)
    else
      let d : ℤ := if right then 1 else -1
      let y := if x1 < x2 then y + d else y
      let y := if x2 < x1 then y - d else y
      let x := if y1 < y2 then x - d else x
      let x := if y2 < y1 then x + d else x
      (x, y)

/-- The `(sector, seed)` pairs for which `drawMap` (lines 2122-2145) calls
`floodFill`: every in-range linedef side whose sector passed the HOM
check and whose flood point is not the problem sentinel. -/
def floodFillCalls (vertexes : List Vertex) (linedefs : List LineDef)
    (sidedefs : List SideDef) (offsetX offsetY : ℤ) : List (ℕ × Pos) :=
  linedefs.flatMap fun ld =>
    [(true, ld.front), (false, ld.back)].flatMap fun pr =>
      if pr.2 ≠ 65535 ∧ pr.2 < sidedefs.length then
        let sector := (sidedefs.getD pr.2 dSideDef).sector
        if checkHOMSector vertexes linedefs sidedefs sector then
          let xy := findFloodPoint ld vertexes pr.1
          if xy.1 = -1000000 then []
          else [(sector, (xy.1 + offsetX, xy.2 + offsetY))]
        else []
      else []

/-! ### Depth-buffer writes (`drawMap` floor loop lines 2196-2227,
`pasteWall` lines 1862-1893, `pasteThing` lines 1980-1990)

Each painter writes one pixel at a time, guarded by the z-buffer.  The
per-pixel bodies are embedded below; the geometry that produces their
inputs (line rasterisation, sprite/image resizing) feeds in through the
parameters.  The z-buffer is `Pos → ℤ` (its `np.int16` storage width is
not modelled; image coordinates stay far below 2^15). -/

/-- Point update of a raster-indexed function. -/
def setAt {α : Type} (f : Pos → α) (p : Pos) (v : α) : Pos → α :=
  fun q => if q = p then v else f q

/-- One channel of the alpha blend in `pasteWall`:
`(bg*(255 - opacity) + fg*opacity) // 255`. -/
def blendChannel (bg fg opacity : ℕ) : ℕ :=
  (bg * (255 - opacity) + fg * opacity) / 255

/-- The alpha blend of `pasteWall` on a whole pixel. -/
def blend (bg fg : RGB) (opacity : ℕ) : RGB :=
  (blendChannel bg.1 fg.1 opacity, blendChannel bg.2.1 fg.2.1 opacity,
    blendChannel bg.2.2 fg.2.2 opacity)

/-- The floor painter's per-pixel body (`drawMap`, lines 2192-2227):
bounds check on the target `(i-hx, j-hy)`, z test `j > lastZ`, skip when
the flat is missing, else write the lit color and depth `j`. -/
def floorPixelStep (W H : ℤ) (zb : Pos → ℤ) (img : Pos → RGB)
    (i j hx hy : ℤ) (flatPresent : Bool) (litColor : RGB) :
    (Pos → ℤ) × (Pos → RGB) :=
  if i - hx < 0 ∨ j - hy < 0 ∨ W ≤ i - hx ∨ H ≤ j - hy then (zb, img)
  else
    let lastZ := zb (i - hx, j - hy)
    if j > lastZ then
      if flatPresent then
        (setAt zb (i - hx, j - hy) j, setAt img (i - hx, j - hy) litColor)
      else (zb, img)
    else (zb, img)

/-- The wall painter's per-pixel body (`pasteWall`, lines 1858-1893):
bounds check on `target`, z test `y > lastZ`, skip fully transparent
pixels, force opacity 80 for back-facing walls, blend the color, and
update the depth only when the effective opacity is at least 80. -/
def pasteWallPixelStep (W H : ℤ) (zb : Pos → ℤ) (img : Pos → RGB)
    (target : Pos) (y : ℤ) (fg : RGB) (opacityIn : ℕ) (isTransparent : Bool) :
    (Pos → ℤ) × (Pos → RGB) :=
  if target.1 < 0 ∨ target.2 < 0 ∨ W ≤ target.1 ∨ H ≤ target.2 then (zb, img)
  else
    let lastZ := zb target
    if y > lastZ then
      if opacityIn = 0 then (zb, img)
      else
        let opacity := if isTransparent then 80 else opacityIn
        let img' := setAt img target (blend (img target) fg opacity)
        if 80 ≤ opacity then (setAt zb target y, img') else (zb, img')
    else (zb, img)

/-- The thing painter's per-pixel body (`pasteThing`, lines 1966-1990):
skip transparent sprite pixels, bounds check, z test `physY > lastZ`,
then write the sprite color and depth together. -/
def pasteThingPixelStep (W H : ℤ) (zb : Pos → ℤ) (img : Pos → RGB)
    (picX picY : ℤ) (alpha : ℕ) (spriteColor : RGB) (physY : ℤ) :
    (Pos → ℤ) × (Pos → RGB) :=
  if alpha ≠ 0 then
    if picX < 0 ∨ W ≤ picX ∨ picY < 0 ∨ H ≤ picY then (zb, img)
    else
      let lastZ := zb (picX, picY)
      if physY > lastZ then
        (setAt zb (picX, picY) physY, setAt img (picX, picY) spriteColor)
      else (zb, img)
  else (zb, img)

/-- Empty z-buffer used by the C6 witness (`np.full(..., -32768)`). -/
def zb0 : Pos → ℤ := fun _ => -32768

/-- Black image used by the C6 witness. -/
def img0 : Pos → RGB := fun _ => (0, 0, 0)

/-! ### Seam repair (`fillSeams`, lines 2051-2070)

After the flood fills, the blueprint raster holds black `(0,0,0)`
background, white `(255,255,255)` outline pixels, cyan `(0,255,255)`
filled pixels, and — as the pass runs — blue `(0,0,255)` repaired seam
pixels.  `fillSeams` scans the raster row-major and, at each white pixel,
takes the maximum `sectorData` value over the four neighbours that are
not blue; if it exceeds -1 the pixel is recolored blue and assigned that
value.  (The source's `sectorData[...] is not None` test is always true
for the NumPy array and is not modelled; the theorems consider rasters
whose white pixels are interior, as the margins guarantee, so the edge
behaviour of NumPy indexing does not arise.) -/

/-- Blueprint background color. -/
def colBlack : RGB := (0, 0, 0)

/-- Blueprint outline (border) color. -/
def colWhite : RGB := (255, 255, 255)

/-- Blueprint flood-filled color. -/
def colCyan : RGB := (0, 255, 255)

/-- Blueprint repaired-seam color. -/
def colBlue : RGB := (0, 0, 255)

/-- The scratch raster and the sector-index buffer, as one state. -/
structure BlueprintState where
  px : Pos → RGB
  sec : Pos → ℤ

/-- The neighbour offsets of `fillSeams`, in source order. -/
def seamOffsets : List Pos := [(1, 0), (0, 1), (-1, 0), (0, -1)]

/-- The `maxNeighbour` computation of `fillSeams` at pixel `p`. -/
def seamMaxNeighbour (s : BlueprintState) (p : Pos) : ℤ :=
  seamOffsets.foldl
    (fun m d =>
      if s.px (p.1 + d.1, p.2 + d.2) ≠ colBlue then
        max m (s.sec (p.1 + d.1, p.2 + d.2))
      else m)
    (-1)

/-- The body of the `fillSeams` double loop at one pixel. -/
def fillSeamsStep (s : BlueprintState) (p : Pos) : BlueprintState :=
  if s.px p = colWhite then
    let m := seamMaxNeighbour s p
    if m > -1 then
      { px := setAt s.px p colBlue, sec := setAt s.sec p m }
    else s
  else s

/-- The row-major scan order of the `fillSeams` double loop. -/
def scanCoords (W H : ℕ) : List Pos :=
  ((List.range W).product (List.range H)).map fun pr => ((pr.1 : ℤ), (pr.2 : ℤ))

/-- The `fillSeams`: fold the per-pixel body over the scan order. -/
def fillSeams (W H : ℕ) (s : BlueprintState) : BlueprintState :=
  (scanCoords W H).foldl fillSeamsStep s

/-! ### Flood fill (`floodFill` inside `drawMap`, lines 2002-2048)

The Python flood fill keeps a `toGo` list, pops from its end, paints the
popped pixel with `fillColor` and records the sector index, and examines
the four neighbours in a fixed order: an out-of-range neighbour aborts
the whole fill (`return False`), an in-range neighbour still holding
`currColor` is pushed.  The embedding keeps the worklist in reverse
(push = prepend, pop = head), which preserves the LIFO visit order
exactly; recursion is fuel-indexed (`none` = fuel exhausted) and the
result carries the list of popped pixels in pop order, which the
theorems use to describe the final state.  `drawMap` undoes an aborted
fill by re-running `floodFill` with `erase=True` (colors swapped,
index -1) from the same seed. -/

/-- The neighbour offsets of `floodFill`, in source order. -/
def neighborOffsets : List Pos := [(-1, 0), (0, -1), (1, 0), (0, 1)]

/-- In-bounds predicate for the blueprint raster (`im.size`). -/
def inBounds (W H : ℤ) (p : Pos) : Prop :=
  0 ≤ p.1 ∧ p.1 < W ∧ 0 ≤ p.2 ∧ p.2 < H

instance (W H : ℤ) (p : Pos) : Decidable (inBounds W H p) := by
  unfold inBounds
  infer_instance

/-- The neighbour scan of one popped pixel `q`: walk the offsets in
order, abort (`none`) at the first out-of-range neighbour (the border
check `nextPix[0] < 0 or nextPix[0] == im.size[0] or ...`), push each
in-range neighbour that still holds `currColor`. -/
def floodExamine (W H : ℤ) (curr : RGB) (s : BlueprintState) (q : Pos) :
    List Pos → List Pos → Option (List Pos)
  | [], st => some st
  | d :: ds, st =>
      let np : Pos := (q.1 + d.1, q.2 + d.2)
      if np.1 < 0 ∨ np.1 = W ∨ np.2 < 0 ∨ np.2 = H then none
      else if s.px np = curr ∧ 0 ≤ np.1 ∧ 0 ≤ np.2 ∧ np.1 < W ∧ np.2 < H then
        floodExamine W H curr s q ds (np :: st)
      else
        floodExamine W H curr s q ds st

/-- The `while len(toGo) > 0` loop: pop, paint, record the sector value,
scan neighbours; `some (False, ...)` is the aborted (overspill) outcome,
`some (True, ...)` the completed one.  The popped-pixel list is returned
for specification purposes. -/
def floodLoop (W H : ℤ) (curr fill : RGB) (secVal : ℤ) :
    ℕ → BlueprintState → List Pos → Option (Bool × BlueprintState × List Pos)
  | 0, _, _ => none
  | _ + 1, s, [] => some (true, s, [])
  | n + 1, s, q :: rest =>
      let s1 : BlueprintState :=
        { px := setAt s.px q fill, sec := setAt s.sec q secVal }
      match floodExamine W H curr s1 q neighborOffsets rest with
      | none => some (false, s1, [q])
      | some st1 =>
          match floodLoop W H curr fill secVal n s1 st1 with
          | none => none
          | some (r, s2, L) => some (r, s2, q :: L)

/-- The `floodFill(sector, startPix, erase)`: choose the color pair and
sector value from the `erase` flag, seed the worklist when the start
pixel holds `currColor`, and run the loop. -/
def floodFill (W H : ℤ) (sector : ℤ) (startPix : Pos) (erase : Bool)
    (fuel : ℕ) (s : BlueprintState) :
    Option (Bool × BlueprintState × List Pos) :=
  let currColor := if erase then colCyan else colBlack
  let fillColor := if erase then colBlack else colCyan
  let secVal : ℤ := if erase then -1 else sector
  let st0 : List Pos := if s.px startPix = currColor then [startPix] else []
  floodLoop W H currColor fillColor secVal fuel s st0

/-- The state reached from `B` after painting the pixels of `P` with
color `c` and sector value `v` (used to describe forward-fill states). -/
def paintState (B : BlueprintState) (c : RGB) (v : ℤ) (P : List Pos) :
    BlueprintState :=
  { px := fun p => if p ∈ P then c else B.px p,
    sec := fun p => if p ∈ P then v else B.sec p }

/-- The state of the erase fill after it has undone the pixels of `P`
out of the fill's painted set `S` (over the pre-fill state `B`). -/
def eraseState (B : BlueprintState) (sector : ℤ) (S P : List Pos) :
    BlueprintState :=
  { px := fun p => if p ∈ P then colBlack else if p ∈ S then colCyan else B.px p,
    sec := fun p => if p ∈ P then -1 else if p ∈ S then sector else B.sec p }

/-- All-black 3×3 blueprint with empty sector buffer: an outline-free
raster on which any fill overspills to the border (C1 witness data). -/
def c1B : BlueprintState :=
  { px := fun _ => colBlack, sec := fun _ => -1 }

/-- Final state of the aborted forward fill of the C1 witness. -/
def c1S : BlueprintState :=
  ((floodFill 3 3 7 (1, 1) false 50 c1B).map (fun r => r.2.1)).getD c1B

/-- Pop list of the aborted forward fill of the C1 witness. -/
def c1L : List Pos :=
  ((floodFill 3 3 7 (1, 1) false 50 c1B).map (fun r => r.2.2)).getD []

/-! ### Claim C9 -/

/-- C9: for every placed object with facing angle in 0–359, the sprite
rotation index equals `((14 - angle/45) mod 8) + 1` with integer division,
and always lies in the range 1 to 8. -/
theorem c9_sprite_rotation_index (angle : ℤ) (h0 : 0 ≤ angle) (h1 : angle ≤ 359) :
    spriteRotationIndex angle = (14 - Int.fdiv angle 45).fmod 8 + 1 ∧
      1 ≤ spriteRotationIndex angle ∧ spriteRotationIndex angle ≤ 8 := by
  refine ⟨rfl, ?_, ?_⟩ <;>
  · unfold spriteRotationIndex
    have hdiv : Int.fdiv angle 45 = angle / 45 := Int.fdiv_eq_ediv _ (by norm_num)
    have h45 : (0 : ℤ) ≤ angle / 45 := Int.ediv_nonneg h0 (by norm_num)
    have h45' : angle / 45 ≤ 7 := by omega
    have hmod : (14 - Int.fdiv angle 45).fmod 8 = (14 - angle / 45) % 8 := by
      rw [hdiv, Int.fmod_eq_emod _ (by norm_num)]
    rw [hmod]
    omega

/-- C9 witness: the theorem applied at angle 90. -/
theorem c9_sprite_rotation_index_witness :
    spriteRotationIndex 90 = (14 - Int.fdiv 90 45).fmod 8 + 1 ∧
      1 ≤ spriteRotationIndex 90 ∧ spriteRotationIndex 90 ≤ 8 :=
  c9_sprite_rotation_index 90 (by decide) (by decide)

/-! ### Claim C8 -/

/-- C8: gamma correction with amount 1 is the identity on every pixel
(in particular on every non-black one), pure-black pixels are untouched
for every gamma amount, and each non-black channel of a non-black pixel is
transformed as `output = (input/255)^gamma * 255` (truncated). -/
theorem c8_gamma_identity :
    (∀ t : ℕ → ℕ, gammaPassPixel t (0, 0, 0) = (0, 0, 0)) ∧
      (∀ im : Pos → RGB, ∀ q : Pos, gammaCorrection 1 im q = im q) ∧
      (∀ gamma d : ℕ,
        (gammaChannel gamma d : ℤ) = Int.floor (((d : ℚ) / 255) ^ gamma * 255)) := by
  have hchan : ∀ d : ℕ, gammaChannel 1 d = d := by
    intro d
    unfold gammaChannel
    have : ((d : ℚ) / 255) ^ 1 * 255 = (d : ℚ) := by
      field_simp
    rw [this]
    simp
  refine ⟨?_, ?_, ?_⟩
  · intro t
    simp [gammaPassPixel]
  · intro im q
    unfold gammaCorrection gammaCorrectionPixel gammaPassPixel
    by_cases h : im q = (0, 0, 0)
    · simp [h]
    · simp only [h, ite_false]
      rw [hchan, hchan, hchan]
  · intro gamma d
    unfold gammaChannel
    have hnn : (0 : ℚ) ≤ ((d : ℚ) / 255) ^ gamma * 255 := by positivity
    have : (0 : ℤ) ≤ Int.floor (((d : ℚ) / 255) ^ gamma * 255) :=
      Int.le_floor.mpr (by exact_mod_cast hnn)
    omega

/-! ### Claim C10 -/

/-- The `pixDistance` vanishes exactly on equal colors. -/
theorem pixDistance_eq_zero_iff (p q : RGB) : pixDistance p q = 0 ↔ p = q := by
  obtain ⟨a, b, c⟩ := p
  obtain ⟨x, y, z⟩ := q
  simp only [pixDistance]
  simp only [Prod.mk.injEq]
  omega

/-- Once the loop accumulator reaches distance 0, it never changes. -/
theorem closestPixLoop_zero (pixel : RGB) (l : List RGB) (c : RGB) :
    closestPixLoop pixel l (c, 0) = (c, 0) := by
  induction l with
  | nil => rfl
  | cons pal rest ih =>
      unfold closestPixLoop
      have : ¬ pixDistance pixel pal < 0 := by omega
      simp [this, ih]

/-- If the pixel itself occurs in the remaining palette and the current
best distance is positive, the loop ends on the pixel itself. -/
theorem closestPixLoop_mem (pixel : RGB) (l : List RGB) :
    ∀ c m, 0 < m → pixel ∈ l → (closestPixLoop pixel l (c, m)).1 = pixel := by
  induction l with
  | nil => intro c m _ hmem; cases hmem
  | cons pal rest ih =>
      intro c m hm hmem
      unfold closestPixLoop
      by_cases hpal : pal = pixel
      · have hz : pixDistance pixel pal = 0 :=
          (pixDistance_eq_zero_iff _ _).mpr hpal.symm
        rw [hz]
        simp only [hm, if_pos]
        rw [closestPixLoop_zero]
        exact hpal
      · have hmem' : pixel ∈ rest := by
          cases hmem with
          | head => exact absurd rfl hpal
          | tail _ h => exact h
        by_cases hlt : pixDistance pixel pal < m
        · rw [if_pos hlt]
          have hpos : 0 < pixDistance pixel pal := by
            rcases Nat.eq_zero_or_pos (pixDistance pixel pal) with h0 | h0
            · exact absurd ((pixDistance_eq_zero_iff _ _).mp h0).symm hpal
            · exact h0
          exact ih pal (pixDistance pixel pal) hpos hmem'
        · rw [if_neg hlt]
          exact ih c m hm hmem'

/-- C10: palette snapping is idempotent — a pixel whose RGB triple is
already a palette entry comes back unchanged, and the nearest-color
search itself returns the color (distance 0 is attained at the color). -/
theorem c10_palette_idempotent (pallete : List RGB) (rgb : RGB) (alpha : Option ℕ)
    (hmem : rgb ∈ pallete) :
    (palletizePixel pallete rgb alpha).1 = rgb ∧ closestPix rgb pallete = rgb := by
  constructor
  · unfold palletizePixel
    simp [hmem]
  · unfold closestPix
    exact closestPixLoop_mem rgb pallete (0, 0, 0) (256 * 4) (by norm_num) hmem

/-- C10 witness: the theorem applied to a concrete palette and member color. -/
theorem c10_palette_idempotent_witness :
    (palletizePixel [(0, 0, 0), (10, 20, 30)] (10, 20, 30) (some 200)).1 = (10, 20, 30) ∧
      closestPix (10, 20, 30) [(0, 0, 0), (10, 20, 30)] = (10, 20, 30) :=
  c10_palette_idempotent [(0, 0, 0), (10, 20, 30)] (10, 20, 30) (some 200) (by decide)

/-! ### Claim C5 -/

/-- C5: for every two-sided linedef whose front side declares a middle
texture other than the no-texture dash, wall synthesis produces exactly
two "mid" wall records, opposite-facing (swapped start/end coordinates),
both spanning `max(frontFloor, backFloor)` to
`min(frontCeiling, backCeiling)`. -/
theorem c5_mid_walls (vertexes : List Vertex) (sidedefs : List SideDef)
    (sectors : List Sector) (ld : LineDef)
    (hbeg : ld.beg < vertexes.length) (hende : ld.ende < vertexes.length)
    (hfront : ld.front < sidedefs.length)
    (hmid : (sidedefs.getD ld.front dSideDef).middle ≠ dashName)
    (hback : ld.back < sidedefs.length) (hback65 : ld.back ≠ 65535)
    (hfs : (sidedefs.getD ld.front dSideDef).sector < sectors.length)
    (hbs : (sidedefs.getD ld.back dSideDef).sector < sectors.length) :
    (wallsForLinedef vertexes sidedefs sectors ld).map
        (fun L => L.filter (fun w => w.position == "mid")) =
      some
        [{ sx := (vertexes.getD ld.beg dVertex).x,
           sy := (vertexes.getD ld.beg dVertex).y,
           ex := (vertexes.getD ld.ende dVertex).x,
           ey := (vertexes.getD ld.ende dVertex).y,
           floor :=
             max (sectors.getD (sidedefs.getD ld.front dSideDef).sector dSector).floorHeight
               (sectors.getD (sidedefs.getD ld.back dSideDef).sector dSector).floorHeight,
           ceiling :=
             min (sectors.getD (sidedefs.getD ld.front dSideDef).sector dSector).ceilingHeight
               (sectors.getD (sidedefs.getD ld.back dSideDef).sector dSector).ceilingHeight,
           texture := (sidedefs.getD ld.front dSideDef).middle,
           xOffset := (sidedefs.getD ld.front dSideDef).xOffset,
           yOffset := (sidedefs.getD ld.front dSideDef).yOffset,
           fromTop := false, position := "mid",
           light := (sectors.getD (sidedefs.getD ld.front dSideDef).sector dSector).light,
           isBack := false },
         { sx := (vertexes.getD ld.ende dVertex).x,
           sy := (vertexes.getD ld.ende dVertex).y,
           ex := (vertexes.getD ld.beg dVertex).x,
           ey := (vertexes.getD ld.beg dVertex).y,
           floor :=
             max (sectors.getD (sidedefs.getD ld.front dSideDef).sector dSector).floorHeight
               (sectors.getD (sidedefs.getD ld.back dSideDef).sector dSector).floorHeight,
           ceiling :=
             min (sectors.getD (sidedefs.getD ld.front dSideDef).sector dSector).ceilingHeight
               (sectors.getD (sidedefs.getD ld.back dSideDef).sector dSector).ceilingHeight,
           texture := (sidedefs.getD ld.back dSideDef).middle,
           xOffset := (sidedefs.getD ld.back dSideDef).xOffset,
           yOffset := (sidedefs.getD ld.back dSideDef).yOffset,
           fromTop := false, position := "mid",
           light := (sectors.getD (sidedefs.getD ld.back dSideDef).sector dSector).light,
           isBack := false }] := by
  unfold wallsForLinedef
  have h1 : ¬ (vertexes.length ≤ ld.beg ∨ vertexes.length ≤ ld.ende) := by omega
  have hfsec : sectors[(sidedefs.getD ld.front dSideDef).sector]? =
      some (sectors.getD (sidedefs.getD ld.front dSideDef).sector dSector) := by
    rw [List.getElem?_eq_getElem hfs, List.getD_eq_getElem _ _ hfs]
  have hbsec : sectors[(sidedefs.getD ld.back dSideDef).sector]? =
      some (sectors.getD (sidedefs.getD ld.back dSideDef).sector dSector) := by
    rw [List.getElem?_eq_getElem hbs, List.getD_eq_getElem _ _ hbs]
  simp only [h1, if_false, ite_false, if_neg h1, hfsec, hbsec,
    if_pos (And.intro hfront hmid), if_pos (And.intro hback hback65),
    if_pos (And.intro hfront (And.intro hback hback65))]
  split_ifs <;> simp [List.filter]

/-- C5 witness: a concrete two-sided linedef with middle textures on both
sides produces exactly the two opposite-facing "mid" walls. -/
theorem c5_mid_walls_witness :
    (wallsForLinedef [{ x := 0, y := 0 }, { x := 10, y := 0 }]
        [{ xOffset := 1, yOffset := 2, upper := [], lower := [],
           middle := [65], sector := 0 },
         { xOffset := 3, yOffset := 4, upper := [], lower := [],
           middle := [66], sector := 1 }]
        [{ floorHeight := 0, ceilingHeight := 100, floorTexture := [],
           ceilingTexture := [], light := 128 },
         { floorHeight := 10, ceilingHeight := 80, floorTexture := [],
           ceilingTexture := [], light := 192 }]
        { beg := 0, ende := 1, front := 0, back := 1,
          topUnpegged := 0, bottomUnpegged := 0 }).map
        (fun L => L.filter (fun w => w.position == "mid")) =
      some
        [{ sx := 0, sy := 0, ex := 10, ey := 0, floor := 10, ceiling := 80,
           texture := [65], xOffset := 1, yOffset := 2, fromTop := false,
           position := "mid", light := 128, isBack := false },
         { sx := 10, sy := 0, ex := 0, ey := 0, floor := 10, ceiling := 80,
           texture := [66], xOffset := 3, yOffset := 4, fromTop := false,
           position := "mid", light := 192, isBack := false }] := by
  simpa using c5_mid_walls
    [{ x := 0, y := 0 }, { x := 10, y := 0 }]
    [{ xOffset := 1, yOffset := 2, upper := [], lower := [],
       middle := [65], sector := 0 },
     { xOffset := 3, yOffset := 4, upper := [], lower := [],
       middle := [66], sector := 1 }]
    [{ floorHeight := 0, ceilingHeight := 100, floorTexture := [],
       ceilingTexture := [], light := 128 },
     { floorHeight := 10, ceilingHeight := 80, floorTexture := [],
       ceilingTexture := [], light := 192 }]
    { beg := 0, ende := 1, front := 0, back := 1,
      topUnpegged := 0, bottomUnpegged := 0 }
    (by decide) (by decide) (by decide) (by decide) (by decide) (by decide)
    (by decide) (by decide)

/-! ### Claim C7 -/

/-- C7: for a two-sided linedef, no "top" wall is generated when both
adjacent sectors' ceiling textures carry the sky name `F_SKY1` (even with
different ceiling heights); when the ceilings differ and at least one side
is not sky, exactly one "top" wall spanning the lower to the higher
ceiling is generated. -/
theorem c7_top_sky (vertexes : List Vertex) (sidedefs : List SideDef)
    (sectors : List Sector) (ld : LineDef)
    (hbeg : ld.beg < vertexes.length) (hende : ld.ende < vertexes.length)
    (hfront : ld.front < sidedefs.length)
    (hback : ld.back < sidedefs.length) (hback65 : ld.back ≠ 65535)
    (hfs : (sidedefs.getD ld.front dSideDef).sector < sectors.length)
    (hbs : (sidedefs.getD ld.back dSideDef).sector < sectors.length) :
    ((listHasSub fSky1
          (sectors.getD (sidedefs.getD ld.back dSideDef).sector dSector).ceilingTexture &&
        listHasSub fSky1
          (sectors.getD (sidedefs.getD ld.front dSideDef).sector dSector).ceilingTexture) = true →
      (wallsForLinedef vertexes sidedefs sectors ld).map
          (fun L => L.filter (fun w => w.position == "top")) = some []) ∧
    ((listHasSub fSky1
          (sectors.getD (sidedefs.getD ld.back dSideDef).sector dSector).ceilingTexture &&
        listHasSub fSky1
          (sectors.getD (sidedefs.getD ld.front dSideDef).sector dSector).ceilingTexture) = false →
      (sectors.getD (sidedefs.getD ld.front dSideDef).sector dSector).ceilingHeight ≠
        (sectors.getD (sidedefs.getD ld.back dSideDef).sector dSector).ceilingHeight →
      (wallsForLinedef vertexes sidedefs sectors ld).map
          (fun L => (L.filter (fun w => w.position == "top")).map
            (fun w => (w.floor, w.ceiling))) =
        some
          [(min (sectors.getD (sidedefs.getD ld.front dSideDef).sector dSector).ceilingHeight
              (sectors.getD (sidedefs.getD ld.back dSideDef).sector dSector).ceilingHeight,
            max (sectors.getD (sidedefs.getD ld.front dSideDef).sector dSector).ceilingHeight
              (sectors.getD (sidedefs.getD ld.back dSideDef).sector dSector).ceilingHeight)]) := by
  have h1 : ¬ (vertexes.length ≤ ld.beg ∨ vertexes.length ≤ ld.ende) := by omega
  have hfsec : sectors[(sidedefs.getD ld.front dSideDef).sector]? =
      some (sectors.getD (sidedefs.getD ld.front dSideDef).sector dSector) := by
    rw [List.getElem?_eq_getElem hfs, List.getD_eq_getElem _ _ hfs]
  have hbsec : sectors[(sidedefs.getD ld.back dSideDef).sector]? =
      some (sectors.getD (sidedefs.getD ld.back dSideDef).sector dSector) := by
    rw [List.getElem?_eq_getElem hbs, List.getD_eq_getElem _ _ hbs]
  constructor
  · intro hsky
    unfold wallsForLinedef
    simp only [h1, if_neg h1, hfsec, hbsec,
      if_pos (And.intro hfront (And.intro hback hback65)), hsky]
    split_ifs <;> first | contradiction | omega | simp [List.filter]
  · intro hnosky hneq
    unfold wallsForLinedef
    simp only [h1, if_neg h1, hfsec, hbsec,
      if_pos (And.intro hfront (And.intro hback hback65)), hnosky]
    split_ifs <;> first | contradiction | omega | simp [List.filter]

/-- C7 witness: with both ceilings sky (`F_SKY1`) and differing heights no
"top" wall appears; with one non-sky ceiling and differing heights exactly
one "top" wall spanning 80..100 appears. -/
theorem c7_top_sky_witness :
    (wallsForLinedef [{ x := 0, y := 0 }, { x := 10, y := 0 }]
        [{ xOffset := 0, yOffset := 0, upper := [65], lower := [65],
           middle := dashName, sector := 0 },
         { xOffset := 0, yOffset := 0, upper := [65], lower := [65],
           middle := dashName, sector := 1 }]
        [{ floorHeight := 0, ceilingHeight := 100, floorTexture := [],
           ceilingTexture := [70, 95, 83, 75, 89, 49, 0, 0], light := 128 },
         { floorHeight := 0, ceilingHeight := 80, floorTexture := [],
           ceilingTexture := [70, 95, 83, 75, 89, 49, 0, 0], light := 128 }]
        { beg := 0, ende := 1, front := 0, back := 1,
          topUnpegged := 0, bottomUnpegged := 0 }).map
        (fun L => L.filter (fun w => w.position == "top")) = some [] ∧
    (wallsForLinedef [{ x := 0, y := 0 }, { x := 10, y := 0 }]
        [{ xOffset := 0, yOffset := 0, upper := [65], lower := [65],
           middle := dashName, sector := 0 },
         { xOffset := 0, yOffset := 0, upper := [65], lower := [65],
           middle := dashName, sector := 1 }]
        [{ floorHeight := 0, ceilingHeight := 100, floorTexture := [],
           ceilingTexture := [], light := 128 },
         { floorHeight := 0, ceilingHeight := 80, floorTexture := [],
           ceilingTexture := [70, 95, 83, 75, 89, 49, 0, 0], light := 128 }]
        { beg := 0, ende := 1, front := 0, back := 1,
          topUnpegged := 0, bottomUnpegged := 0 }).map
        (fun L => (L.filter (fun w => w.position == "top")).map
          (fun w => (w.floor, w.ceiling))) = some [(80, 100)] := by
  constructor
  · simpa using
      (c7_top_sky [{ x := 0, y := 0 }, { x := 10, y := 0 }]
        [{ xOffset := 0, yOffset := 0, upper := [65], lower := [65],
           middle := dashName, sector := 0 },
         { xOffset := 0, yOffset := 0, upper := [65], lower := [65],
           middle := dashName, sector := 1 }]
        [{ floorHeight := 0, ceilingHeight := 100, floorTexture := [],
           ceilingTexture := [70, 95, 83, 75, 89, 49, 0, 0], light := 128 },
         { floorHeight := 0, ceilingHeight := 80, floorTexture := [],
           ceilingTexture := [70, 95, 83, 75, 89, 49, 0, 0], light := 128 }]
        { beg := 0, ende := 1, front := 0, back := 1,
          topUnpegged := 0, bottomUnpegged := 0 }
        (by decide) (by decide) (by decide) (by decide) (by decide)
        (by decide) (by decide)).1 (by decide)
  · simpa using
      (c7_top_sky [{ x := 0, y := 0 }, { x := 10, y := 0 }]
        [{ xOffset := 0, yOffset := 0, upper := [65], lower := [65],
           middle := dashName, sector := 0 },
         { xOffset := 0, yOffset := 0, upper := [65], lower := [65],
           middle := dashName, sector := 1 }]
        [{ floorHeight := 0, ceilingHeight := 100, floorTexture := [],
           ceilingTexture := [], light := 128 },
         { floorHeight := 0, ceilingHeight := 80, floorTexture := [],
           ceilingTexture := [70, 95, 83, 75, 89, 49, 0, 0], light := 128 }]
        { beg := 0, ende := 1, front := 0, back := 1,
          topUnpegged := 0, bottomUnpegged := 0 }
        (by decide) (by decide) (by decide) (by decide) (by decide)
        (by decide) (by decide)).2 (by decide) (by decide)

/-! ### Claim C2 -/

/-- C2 counterexample: a sector bounded by three coincident linedefs
between just two distinct vertices — fewer than 3 distinct bounding
points — passes the validity check (the code counts vertex-index entries
with multiplicity, not distinct points) and a flood fill is started for
it, contrary to the claim. -/
theorem c2_counterexample :
    ((sectorVertexList
          [{ beg := 0, ende := 1, front := 0, back := 65535,
             topUnpegged := 0, bottomUnpegged := 0 },
           { beg := 0, ende := 1, front := 0, back := 65535,
             topUnpegged := 0, bottomUnpegged := 0 },
           { beg := 0, ende := 1, front := 0, back := 65535,
             topUnpegged := 0, bottomUnpegged := 0 }]
          [{ xOffset := 0, yOffset := 0, upper := [], lower := [],
             middle := [], sector := 0 }] 0).map
        (fun v => [({ x := 0, y := 0 } : Vertex),
          { x := 10, y := 10 }].getD v dVertex)).dedup.length = 2 ∧
      checkHOMSector [{ x := 0, y := 0 }, { x := 10, y := 10 }]
          [{ beg := 0, ende := 1, front := 0, back := 65535,
             topUnpegged := 0, bottomUnpegged := 0 },
           { beg := 0, ende := 1, front := 0, back := 65535,
             topUnpegged := 0, bottomUnpegged := 0 },
           { beg := 0, ende := 1, front := 0, back := 65535,
             topUnpegged := 0, bottomUnpegged := 0 }]
          [{ xOffset := 0, yOffset := 0, upper := [], lower := [],
             middle := [], sector := 0 }] 0 = true ∧
      (0, ((4 : ℤ), (6 : ℤ))) ∈
        floodFillCalls [{ x := 0, y := 0 }, { x := 10, y := 10 }]
          [{ beg := 0, ende := 1, front := 0, back := 65535,
             topUnpegged := 0, bottomUnpegged := 0 },
           { beg := 0, ende := 1, front := 0, back := 65535,
             topUnpegged := 0, bottomUnpegged := 0 },
           { beg := 0, ende := 1, front := 0, back := 65535,
             topUnpegged := 0, bottomUnpegged := 0 }]
          [{ xOffset := 0, yOffset := 0, upper := [], lower := [],
             middle := [], sector := 0 }] 0 0 := by
  refine ⟨by decide, by decide, by decide⟩

/-- C2 amended: a sector whose bounding vertex-index list (with
multiplicity, two entries per referencing side) has fewer than 6 entries,
or whose in-range bounding vertices are absent or span strictly less than
2 units in either axis, is marked invalid by the validity check (which is
a total function — it never fails), and no flood fill is ever started for
it. -/
theorem c2_degenerate_excluded (vertexes : List Vertex)
    (linedefs : List LineDef) (sidedefs : List SideDef)
    (offsetX offsetY : ℤ) (s : ℕ)
    (hdeg : (sectorVertexList linedefs sidedefs s).length < 6 ∨
      (sectorXs vertexes (sectorVertexList linedefs sidedefs s)).length = 0 ∨
      spanOf (sectorXs vertexes (sectorVertexList linedefs sidedefs s)) < 2 ∨
      spanOf (sectorYs vertexes (sectorVertexList linedefs sidedefs s)) < 2) :
    checkHOMSector vertexes linedefs sidedefs s = false ∧
      ∀ c ∈ floodFillCalls vertexes linedefs sidedefs offsetX offsetY,
        c.1 ≠ s := by
  have hflag : checkHOMSector vertexes linedefs sidedefs s = false := by
    unfold checkHOMSector
    dsimp only
    split_ifs with h1 h2 h3
    · rfl
    · rfl
    · rfl
    · rcases hdeg with h | h | h | h
      · exact absurd h h1
      · exact absurd h h2
      · exact absurd (Or.inl h) h3
      · exact absurd (Or.inr h) h3
  refine ⟨hflag, ?_⟩
  intro c hc heq
  unfold floodFillCalls at hc
  rw [List.mem_flatMap] at hc
  obtain ⟨ld, -, hc⟩ := hc
  rw [List.mem_flatMap] at hc
  obtain ⟨pr, -, hc⟩ := hc
  dsimp only at hc
  by_cases hin : pr.2 ≠ 65535 ∧ pr.2 < sidedefs.length
  · rw [if_pos hin] at hc
    by_cases hhom :
        checkHOMSector vertexes linedefs sidedefs
          ((sidedefs.getD pr.2 dSideDef).sector) = true
    · rw [if_pos hhom] at hc
      by_cases hsen : (findFloodPoint ld vertexes pr.1).1 = -1000000
      · rw [if_pos hsen] at hc
        cases hc
      · rw [if_neg hsen] at hc
        rw [List.mem_singleton] at hc
        rw [hc] at heq
        dsimp only at heq
        rw [heq] at hhom
        rw [hflag] at hhom
        cases hhom
    · rw [if_neg hhom] at hc
      cases hc
  · rw [if_neg hin] at hc
    cases hc

/-- C2 amended witness: with no linedefs at all, sector 0 has an empty
bounding list, is marked invalid, and no flood fill call mentions it. -/
theorem c2_degenerate_excluded_witness :
    checkHOMSector [] [] [] 0 = false ∧
      ∀ c ∈ floodFillCalls [] [] [] 0 0, c.1 ≠ 0 :=
  c2_degenerate_excluded [] [] [] 0 0 0 (Or.inl (by decide))

/-! ### Claim C6 -/

/-- C6: each painter (floor, wall, thing) writes a pixel's color only when
the candidate world depth strictly exceeds the value stored in the
z-buffer at the target pixel, and whenever the stored z-buffer value
changes it strictly increases (walls update the depth only when the
effective opacity is at least 80). -/
theorem c6_depth_buffer_strict (W H : ℤ) (zb : Pos → ℤ) (img : Pos → RGB) :
    (∀ i j hx hy fp lc (p : Pos),
      ((floorPixelStep W H zb img i j hx hy fp lc).1 p ≠ zb p →
        zb p < (floorPixelStep W H zb img i j hx hy fp lc).1 p) ∧
      ((floorPixelStep W H zb img i j hx hy fp lc).2 p ≠ img p →
        p = (i - hx, j - hy) ∧ zb (i - hx, j - hy) < j)) ∧
    (∀ target y fg opacityIn it (p : Pos),
      ((pasteWallPixelStep W H zb img target y fg opacityIn it).1 p ≠ zb p →
        zb p < (pasteWallPixelStep W H zb img target y fg opacityIn it).1 p ∧
          80 ≤ (if it then 80 else opacityIn)) ∧
      ((pasteWallPixelStep W H zb img target y fg opacityIn it).2 p ≠ img p →
        p = target ∧ zb target < y)) ∧
    (∀ picX picY alpha sc physY (p : Pos),
      ((pasteThingPixelStep W H zb img picX picY alpha sc physY).1 p ≠ zb p →
        zb p < (pasteThingPixelStep W H zb img picX picY alpha sc physY).1 p) ∧
      ((pasteThingPixelStep W H zb img picX picY alpha sc physY).2 p ≠ img p →
        p = (picX, picY) ∧ zb (picX, picY) < physY)) := by
  refine ⟨?_, ?_, ?_⟩
  · intro i j hx hy fp lc p
    unfold floorPixelStep
    dsimp only
    split_ifs with h1 h2 h3
    · exact ⟨fun h => absurd rfl h, fun h => absurd rfl h⟩
    · constructor
      · intro h
        simp only [setAt] at h ⊢
        by_cases hp : p = (i - hx, j - hy)
        · rw [if_pos hp] at h ⊢
          subst hp
          omega
        · rw [if_neg hp] at h
          exact absurd rfl h
      · intro h
        simp only [setAt] at h
        by_cases hp : p = (i - hx, j - hy)
        · exact ⟨hp, h2⟩
        · rw [if_neg hp] at h
          exact absurd rfl h
    · exact ⟨fun h => absurd rfl h, fun h => absurd rfl h⟩
    · exact ⟨fun h => absurd rfl h, fun h => absurd rfl h⟩
  · intro target y fg opacityIn it p
    unfold pasteWallPixelStep
    dsimp only
    cases it
    · simp only [Bool.false_eq_true, if_false, ite_false]
      split_ifs with h1 h2 h3 h4
      · exact ⟨fun h => absurd rfl h, fun h => absurd rfl h⟩
      · exact ⟨fun h => absurd rfl h, fun h => absurd rfl h⟩
      · constructor
        · intro h
          refine ⟨?_, h4⟩
          simp only [setAt] at h ⊢
          by_cases hp : p = target
          · rw [if_pos hp] at h ⊢
            subst hp
            omega
          · rw [if_neg hp] at h
            exact absurd rfl h
        · intro h
          simp only [setAt] at h
          by_cases hp : p = target
          · exact ⟨hp, h2⟩
          · rw [if_neg hp] at h
            exact absurd rfl h
      · constructor
        · intro h
          exact absurd rfl h
        · intro h
          simp only [setAt] at h
          by_cases hp : p = target
          · exact ⟨hp, h2⟩
          · rw [if_neg hp] at h
            exact absurd rfl h
      · exact ⟨fun h => absurd rfl h, fun h => absurd rfl h⟩
    · simp only [ite_true, le_refl, if_true]
      split_ifs with h1 h2 h3
      · exact ⟨fun h => absurd rfl h, fun h => absurd rfl h⟩
      · exact ⟨fun h => absurd rfl h, fun h => absurd rfl h⟩
      · constructor
        · intro h
          refine ⟨?_, trivial⟩
          simp only [setAt] at h ⊢
          by_cases hp : p = target
          · rw [if_pos hp] at h ⊢
            subst hp
            omega
          · rw [if_neg hp] at h
            exact absurd rfl h
        · intro h
          simp only [setAt] at h
          by_cases hp : p = target
          · exact ⟨hp, h2⟩
          · rw [if_neg hp] at h
            exact absurd rfl h
      · exact ⟨fun h => absurd rfl h, fun h => absurd rfl h⟩
  · intro picX picY alpha sc physY p
    unfold pasteThingPixelStep
    dsimp only
    split_ifs with h1 h2 h3
    · exact ⟨fun h => absurd rfl h, fun h => absurd rfl h⟩
    · constructor
      · intro h
        simp only [setAt] at h ⊢
        by_cases hp : p = (picX, picY)
        · rw [if_pos hp] at h ⊢
          subst hp
          omega
        · rw [if_neg hp] at h
          exact absurd rfl h
      · intro h
        simp only [setAt] at h
        by_cases hp : p = (picX, picY)
        · exact ⟨hp, h3⟩
        · rw [if_neg hp] at h
          exact absurd rfl h
    · exact ⟨fun h => absurd rfl h, fun h => absurd rfl h⟩
    · exact ⟨fun h => absurd rfl h, fun h => absurd rfl h⟩

/-- C6 witness: the theorem applied to one concrete write of each painter:
a floor write at (3,5) with depth 5, a wall color write at (4,4) with
depth 7, and a thing depth write at (2,2) with depth 6. -/
theorem c6_depth_buffer_strict_witness :
    zb0 (3, 5) < (floorPixelStep 10 10 zb0 img0 3 5 0 0 true (1, 2, 3)).1 (3, 5) ∧
      (((4 : ℤ), (4 : ℤ)) = ((4 : ℤ), (4 : ℤ)) ∧ zb0 (4, 4) < 7) ∧
      zb0 (2, 2) < (pasteThingPixelStep 10 10 zb0 img0 2 2 255 (5, 5, 5) 6).1 (2, 2) :=
  ⟨((c6_depth_buffer_strict 10 10 zb0 img0).1 3 5 0 0 true (1, 2, 3) (3, 5)).1
      (by decide),
    ((c6_depth_buffer_strict 10 10 zb0 img0).2.1 (4, 4) 7 (9, 9, 9) 255 false
        ((4 : ℤ), (4 : ℤ))).2 (by decide),
    ((c6_depth_buffer_strict 10 10 zb0 img0).2.2 2 2 255 (5, 5, 5) 6 (2, 2)).1
      (by decide)⟩

/-! ### Claim C4 -/

/-- C4 counterexample: the claim says every geometry loader returns the
empty entity list on an absent lump, but `getVertixes` has no
`if lump is None` guard — on an absent lump it raises (modelled `none`),
not `some []`. -/
theorem c4_counterexample : getVertixes none ≠ some [] := by
  simp [getVertixes]

/-- C4 amended: the line-segment, side, sector and placed-object loaders
each return the empty list (and no error) on an absent lump; the vertex
loader assumes its lump is present (it raises on an absent one, see the
counterexample) and returns the empty list on an empty present lump. -/
theorem c4_absent_lumps (zStyle : Bool) :
    getLineDefs none zStyle = some [] ∧
      getSideDefs none = some [] ∧
      getSectors none = some [] ∧
      getThings none zStyle = some [] ∧
      getVertixes (some { data := [], pos := 0 }) = some [] := by
  refine ⟨rfl, rfl, rfl, rfl, rfl⟩

/-! ### Claim C3 -/

/-- The fold computing `maxNeighbour` never goes below its start value. -/
theorem seamFold_start_le (C : Pos → Prop) [DecidablePred C] (V : Pos → ℤ) :
    ∀ (ds : List Pos) (m : ℤ),
      m ≤ List.foldl (fun m d => if C d then max m (V d) else m) m ds := by
  intro ds
  induction ds with
  | nil => intro m; simp
  | cons d rest ih =>
      intro m
      simp only [List.foldl_cons]
      by_cases h : C d
      · rw [if_pos h]
        exact le_trans (le_max_left _ _) (ih _)
      · rw [if_neg h]
        exact ih m

/-- The fold computing `maxNeighbour` is bounded by any bound on the
contributing values. -/
theorem seamFold_le (C : Pos → Prop) [DecidablePred C] (V : Pos → ℤ) (B : ℤ) :
    ∀ (ds : List Pos) (m : ℤ), (∀ d ∈ ds, C d → V d ≤ B) → m ≤ B →
      List.foldl (fun m d => if C d then max m (V d) else m) m ds ≤ B := by
  intro ds
  induction ds with
  | nil => intro m _ hm; simpa using hm
  | cons d rest ih =>
      intro m hall hm
      simp only [List.foldl_cons]
      by_cases h : C d
      · rw [if_pos h]
        exact ih _ (fun e he hc => hall e (List.mem_cons_of_mem _ he) hc)
          (max_le hm (hall d (List.mem_cons_self d rest) h))
      · rw [if_neg h]
        exact ih m (fun e he hc => hall e (List.mem_cons_of_mem _ he) hc) hm

/-- Every contributing value bounds the fold from below. -/
theorem seamFold_mem_le (C : Pos → Prop) [DecidablePred C] (V : Pos → ℤ) :
    ∀ (ds : List Pos) (m : ℤ) (d0 : Pos), d0 ∈ ds → C d0 →
      V d0 ≤ List.foldl (fun m d => if C d then max m (V d) else m) m ds := by
  intro ds
  induction ds with
  | nil => intro m d0 hmem; cases hmem
  | cons d rest ih =>
      intro m d0 hmem hc
      simp only [List.foldl_cons]
      rcases List.mem_cons.mp hmem with he | he
      · subst he
        rw [if_pos hc]
        exact le_trans (le_max_right _ _) (seamFold_start_le C V rest _)
      · by_cases h : C d
        · rw [if_pos h]
          exact ih _ d0 he hc
        · rw [if_neg h]
          exact ih m d0 he hc

/-- The `fillSeamsStep` at `p` changes no pixel other than `p`. -/
theorem fillSeamsStep_ne (s : BlueprintState) (p q : Pos) (h : q ≠ p) :
    (fillSeamsStep s p).px q = s.px q ∧ (fillSeamsStep s p).sec q = s.sec q := by
  unfold fillSeamsStep
  dsimp only
  split_ifs <;> simp [setAt, h]

/-- The `fillSeamsStep` at a white pixel with a found neighbour writes the
blue color and the neighbour maximum. -/
theorem fillSeamsStep_write (s : BlueprintState) (p : Pos)
    (hw : s.px p = colWhite) (hm : seamMaxNeighbour s p > -1) :
    fillSeamsStep s p =
      { px := setAt s.px p colBlue,
        sec := setAt s.sec p (seamMaxNeighbour s p) } := by
  unfold fillSeamsStep
  dsimp only
  rw [if_pos hw, if_pos hm]

/-- The `fillSeamsStep` at a white pixel with no found neighbour does
nothing. -/
theorem fillSeamsStep_skip (s : BlueprintState) (p : Pos)
    (hw : s.px p = colWhite) (hm : ¬ seamMaxNeighbour s p > -1) :
    fillSeamsStep s p = s := by
  unfold fillSeamsStep
  dsimp only
  rw [if_pos hw, if_neg hm]

/-- Folding `fillSeamsStep` over a list not containing `p` leaves `p`
unchanged. -/
theorem seamFold_notMem (L : List Pos) :
    ∀ (s : BlueprintState) (p : Pos), p ∉ L →
      (L.foldl fillSeamsStep s).px p = s.px p ∧
        (L.foldl fillSeamsStep s).sec p = s.sec p := by
  induction L with
  | nil => intro s p _; exact ⟨rfl, rfl⟩
  | cons q rest ih =>
      intro s p hp
      have hq : p ≠ q := fun h => hp (h ▸ List.mem_cons_self q rest)
      simp only [List.foldl_cons]
      obtain ⟨h1, h2⟩ := ih (fillSeamsStep s q) p (fun h => hp (List.mem_cons_of_mem _ h))
      obtain ⟨h3, h4⟩ := fillSeamsStep_ne s q p hq
      exact ⟨h1.trans h3, h2.trans h4⟩

/-- Invariant of the seam pass: each pixel is either untouched, or was
white and is now blue with a non-negative sector index. -/
theorem seamFold_inv (s0 : BlueprintState) (L : List Pos) :
    ∀ s : BlueprintState,
      (∀ q, (s.px q = s0.px q ∧ s.sec q = s0.sec q) ∨
        (s0.px q = colWhite ∧ s.px q = colBlue ∧ 0 ≤ s.sec q)) →
      ∀ q, ((L.foldl fillSeamsStep s).px q = s0.px q ∧
          (L.foldl fillSeamsStep s).sec q = s0.sec q) ∨
        (s0.px q = colWhite ∧ (L.foldl fillSeamsStep s).px q = colBlue ∧
          0 ≤ (L.foldl fillSeamsStep s).sec q) := by
  induction L with
  | nil => intro s h q; exact h q
  | cons d rest ih =>
      intro s h q
      simp only [List.foldl_cons]
      apply ih
      intro r
      by_cases hr : r = d
      · subst hr
        unfold fillSeamsStep
        dsimp only
        split_ifs with hw hm
        · right
          refine ⟨?_, ?_, ?_⟩
          · rcases h r with ⟨h1, _⟩ | ⟨h1, h2, _⟩
            · rw [← h1]; exact hw
            · rw [h2] at hw; exact absurd hw (by decide)
          · simp [setAt]
          · simp only [setAt, if_true, eq_self_iff_true, ite_true]
            omega
        · exact h r
        · exact h r
      · obtain ⟨h3, h4⟩ := fillSeamsStep_ne s d r hr
        rcases h r with ⟨h1, h2⟩ | ⟨h1, h2, h5⟩
        · exact Or.inl ⟨h3.trans h1, h4.trans h2⟩
        · refine Or.inr ⟨h1, h3.trans h2, ?_⟩
          rw [h4]; exact h5

/-- The row-major scan order visits each coordinate once. -/
theorem scanCoords_nodup (W H : ℕ) : (scanCoords W H).Nodup := by
  unfold scanCoords
  apply List.Nodup.map
  · intro a b hab
    cases a; cases b
    simp only [Prod.mk.injEq] at hab ⊢
    exact ⟨Nat.cast_injective hab.1, Nat.cast_injective hab.2⟩
  · exact (List.nodup_range W).product (List.nodup_range H)

/-- C3: in the seam-repair pass, an outline-colored (white) pixel whose
flood-resolved (cyan) neighbours all carry the same sector index `sval`
— and at least one such neighbour exists — ends with that sector index
(and is recolored blue); a white pixel with no resolved neighbour keeps
no sector index (it stays white with index -1).  Hypotheses: the pass
runs on the post-fill state, in which no pixel is blue yet, unresolved
pixels carry index -1, and the pixel lies in the scanned raster. -/
theorem c3_seam_repair (W H : ℕ) (s0 : BlueprintState) (p : Pos)
    (hp : p ∈ scanCoords W H)
    (hwhite : s0.px p = colWhite)
    (hunres : ∀ q, s0.px q ≠ colCyan → s0.sec q = -1) :
    (∀ sval : ℤ, 0 ≤ sval →
      (∃ d ∈ seamOffsets, s0.px (p.1 + d.1, p.2 + d.2) = colCyan) →
      (∀ d ∈ seamOffsets, s0.px (p.1 + d.1, p.2 + d.2) = colCyan →
        s0.sec (p.1 + d.1, p.2 + d.2) = sval) →
      (fillSeams W H s0).sec p = sval ∧ (fillSeams W H s0).px p = colBlue) ∧
    ((∀ d ∈ seamOffsets, s0.px (p.1 + d.1, p.2 + d.2) ≠ colCyan) →
      (fillSeams W H s0).sec p = -1 ∧ (fillSeams W H s0).px p = colWhite) := by
  obtain ⟨L1, L2, hsplit⟩ := List.append_of_mem hp
  have hnodup := scanCoords_nodup W H
  rw [hsplit] at hnodup
  have hnod := List.nodup_append.mp hnodup
  have hp2 : p ∉ L2 := (List.nodup_cons.mp hnod.2.1).1
  have hp1 : p ∉ L1 := fun hmem => (hnod.2.2 hmem) (List.mem_cons_self p L2)
  unfold fillSeams
  rw [hsplit, List.foldl_append, List.foldl_cons]
  have hkeep := seamFold_notMem L1 s0 p hp1
  have hinv :
      ∀ q, ((L1.foldl fillSeamsStep s0).px q = s0.px q ∧
          (L1.foldl fillSeamsStep s0).sec q = s0.sec q) ∨
        (s0.px q = colWhite ∧ (L1.foldl fillSeamsStep s0).px q = colBlue ∧
          0 ≤ (L1.foldl fillSeamsStep s0).sec q) :=
    seamFold_inv s0 L1 s0 (fun q => Or.inl ⟨rfl, rfl⟩)
  have hw1 : (L1.foldl fillSeamsStep s0).px p = colWhite := hkeep.1.trans hwhite
  constructor
  · intro sval hsval ⟨d0, hd0mem, hd0cyan⟩ hall
    have hmax : seamMaxNeighbour (L1.foldl fillSeamsStep s0) p = sval := by
      unfold seamMaxNeighbour
      apply le_antisymm
      · apply seamFold_le
          (C := fun d => (L1.foldl fillSeamsStep s0).px (p.1 + d.1, p.2 + d.2) ≠ colBlue)
          (V := fun d => (L1.foldl fillSeamsStep s0).sec (p.1 + d.1, p.2 + d.2))
          sval seamOffsets (-1) ?_ (by omega)
        intro d hd hc
        dsimp only at hc ⊢
        rcases hinv (p.1 + d.1, p.2 + d.2) with ⟨h1, h2⟩ | ⟨h1, h2, h3⟩
        · by_cases hcy : s0.px (p.1 + d.1, p.2 + d.2) = colCyan
          · rw [h2, hall d hd hcy]
          · rw [h2, hunres _ hcy]; omega
        · exact absurd h2 hc
      · have hC : (L1.foldl fillSeamsStep s0).px (p.1 + d0.1, p.2 + d0.2) ≠ colBlue := by
          rcases hinv (p.1 + d0.1, p.2 + d0.2) with ⟨h1, _⟩ | ⟨h1, _, _⟩
          · rw [h1, hd0cyan]; decide
          · rw [h1] at hd0cyan; exact absurd hd0cyan (by decide)
        have hV : (L1.foldl fillSeamsStep s0).sec (p.1 + d0.1, p.2 + d0.2) = sval := by
          rcases hinv (p.1 + d0.1, p.2 + d0.2) with ⟨h1, h2⟩ | ⟨h1, _, _⟩
          · rw [h2]; exact hall d0 hd0mem hd0cyan
          · rw [h1] at hd0cyan; exact absurd hd0cyan (by decide)
        have hle := seamFold_mem_le
          (C := fun d => (L1.foldl fillSeamsStep s0).px (p.1 + d.1, p.2 + d.2) ≠ colBlue)
          (V := fun d => (L1.foldl fillSeamsStep s0).sec (p.1 + d.1, p.2 + d.2))
          seamOffsets (-1) d0 hd0mem hC
        dsimp only at hle
        rw [hV] at hle
        exact hle
    have hstep := fillSeamsStep_write (L1.foldl fillSeamsStep s0) p hw1
      (by rw [hmax]; omega)
    obtain ⟨hf1, hf2⟩ := seamFold_notMem L2 (fillSeamsStep (L1.foldl fillSeamsStep s0) p) p hp2
    rw [hf2, hf1, hstep]
    constructor
    · simp [setAt, hmax]
    · simp [setAt]
  · intro hnone
    have hmax_le : seamMaxNeighbour (L1.foldl fillSeamsStep s0) p ≤ -1 := by
      unfold seamMaxNeighbour
      apply seamFold_le
        (C := fun d => (L1.foldl fillSeamsStep s0).px (p.1 + d.1, p.2 + d.2) ≠ colBlue)
        (V := fun d => (L1.foldl fillSeamsStep s0).sec (p.1 + d.1, p.2 + d.2))
        (-1) seamOffsets (-1) ?_ le_rfl
      intro d hd hc
      dsimp only at hc ⊢
      rcases hinv (p.1 + d.1, p.2 + d.2) with ⟨h1, h2⟩ | ⟨h1, h2, h3⟩
      · rw [h2, hunres _ (hnone d hd)]
      · exact absurd h2 hc
    have hstep := fillSeamsStep_skip (L1.foldl fillSeamsStep s0) p hw1
      (by omega)
    obtain ⟨hf1, hf2⟩ := seamFold_notMem L2 (fillSeamsStep (L1.foldl fillSeamsStep s0) p) p hp2
    rw [hf2, hf1, hstep]
    refine ⟨hkeep.2.trans (hunres p (by rw [hwhite]; decide)), hw1⟩

/-- C3 witness: on a 3×3 blueprint where the white pixel (1,1) has one
cyan neighbour (2,1) carrying sector 5, the seam pass assigns it sector 5
and recolors it blue. -/
theorem c3_seam_repair_witness :
    (fillSeams 3 3
        { px := fun q => if q = ((1 : ℤ), (1 : ℤ)) then colWhite
            else if q = ((2 : ℤ), (1 : ℤ)) then colCyan else colBlack,
          sec := fun q => if q = ((2 : ℤ), (1 : ℤ)) then 5 else -1 }).sec (1, 1) = 5 ∧
    (fillSeams 3 3
        { px := fun q => if q = ((1 : ℤ), (1 : ℤ)) then colWhite
            else if q = ((2 : ℤ), (1 : ℤ)) then colCyan else colBlack,
          sec := fun q => if q = ((2 : ℤ), (1 : ℤ)) then 5 else -1 }).px (1, 1) = colBlue := by
  refine (c3_seam_repair 3 3
      { px := fun q => if q = ((1 : ℤ), (1 : ℤ)) then colWhite
          else if q = ((2 : ℤ), (1 : ℤ)) then colCyan else colBlack,
        sec := fun q => if q = ((2 : ℤ), (1 : ℤ)) then 5 else -1 }
      (1, 1) (by decide) (by decide) ?_).1 5 (by decide)
      ⟨(1, 0), by decide, by decide⟩ (by decide)
  intro q hq
  by_cases h : q = ((2 : ℤ), (1 : ℤ))
  · subst h
    exact absurd (by decide) hq
  · simp [h]

/-! ### Claim C1 -/

/-- Two blueprint states with equal components are equal. -/
theorem BlueprintState.ext (a b : BlueprintState)
    (h1 : a.px = b.px) (h2 : a.sec = b.sec) : a = b := by
  cases a
  cases b
  cases h1
  cases h2
  rfl

/-- Painting nothing is the identity. -/
theorem paintState_nil (B : BlueprintState) (c : RGB) (v : ℤ) :
    paintState B c v [] = B := by
  apply BlueprintState.ext <;> funext p <;> simp [paintState]

/-- Painting one more pixel over a painted state. -/
theorem paintState_cons (B : BlueprintState) (c : RGB) (v : ℤ)
    (P : List Pos) (q : Pos) :
    ({ px := setAt (paintState B c v P).px q c,
       sec := setAt (paintState B c v P).sec q v } : BlueprintState) =
      paintState B c v (q :: P) := by
  apply BlueprintState.ext <;> funext p <;>
    simp only [paintState, setAt, List.mem_cons] <;>
    by_cases hp : p = q <;> simp [hp]

/-- Before any pixel is erased, the erase state is the painted state. -/
theorem eraseState_nil (B : BlueprintState) (sector : ℤ) (S : List Pos) :
    eraseState B sector S [] = paintState B colCyan sector S := by
  apply BlueprintState.ext <;> funext p <;> simp [eraseState, paintState]

/-- Erasing one more pixel over an erase state. -/
theorem eraseState_cons (B : BlueprintState) (sector : ℤ)
    (S P : List Pos) (q : Pos) :
    ({ px := setAt (eraseState B sector S P).px q colBlack,
       sec := setAt (eraseState B sector S P).sec q (-1) } : BlueprintState) =
      eraseState B sector S (q :: P) := by
  apply BlueprintState.ext <;> funext p <;>
    simp only [eraseState, setAt, List.mem_cons] <;>
    by_cases hp : p = q <;> simp [hp]

/-- Every entry of a successful neighbour scan's worklist either was
there before or is an in-range pixel that held `curr`. -/
theorem floodExamine_prop (W H : ℤ) (curr : RGB) (s : BlueprintState)
    (q : Pos) (Q : Pos → Prop)
    (hnew : ∀ np : Pos, s.px np = curr → 0 ≤ np.1 → np.1 < W → 0 ≤ np.2 →
      np.2 < H → Q np) :
    ∀ (ds st st' : List Pos), (∀ e ∈ st, Q e) →
      floodExamine W H curr s q ds st = some st' → ∀ e ∈ st', Q e := by
  intro ds
  induction ds with
  | nil =>
      intro st st' hst h
      unfold floodExamine at h
      cases h
      exact hst
  | cons d rest ih =>
      intro st st' hst h
      unfold floodExamine at h
      dsimp only at h
      split_ifs at h with h1 h2
      · exact ih (((q.1 + d.1, q.2 + d.2)) :: st) st'
          (by
            intro e he
            rcases List.mem_cons.mp he with he | he
            · subst he
              exact hnew _ h2.1 h2.2.1 h2.2.2.2.1 h2.2.2.1 h2.2.2.2.2
            · exact hst e he)
          h
      · exact ih st st' hst h

/-- The final state of a flood-fill loop run: popped pixels painted with
the fill color and the sector value, everything else untouched. -/
theorem floodLoop_state (W H : ℤ) (curr fill : RGB) (secVal : ℤ) :
    ∀ (n : ℕ) (s : BlueprintState) (st : List Pos) (r : Bool)
      (s' : BlueprintState) (L : List Pos),
      floodLoop W H curr fill secVal n s st = some (r, s', L) →
      (∀ p : Pos, s'.px p = if p ∈ L then fill else s.px p) ∧
        (∀ p : Pos, s'.sec p = if p ∈ L then secVal else s.sec p) := by
  intro n
  induction n with
  | zero =>
      intro s st r s' L h
      cases h
  | succ n ih =>
      intro s st r s' L h
      match st with
      | [] =>
          unfold floodLoop at h
          cases h
          constructor <;> intro p <;> simp
      | q :: rest =>
          unfold floodLoop at h
          dsimp only at h
          rcases hex : floodExamine W H curr
              { px := setAt s.px q fill, sec := setAt s.sec q secVal } q
              neighborOffsets rest with _ | st1
          · rw [hex] at h
            dsimp only at h
            cases h
            constructor <;> intro p <;>
              simp only [List.mem_singleton, setAt]
          · rw [hex] at h
            dsimp only at h
            rcases hrec : floodLoop W H curr fill secVal n
                { px := setAt s.px q fill, sec := setAt s.sec q secVal } st1
              with _ | res
            · rw [hrec] at h
              cases h
            · rw [hrec] at h
              obtain ⟨r2, s2, L2⟩ := res
              dsimp only at h
              cases h
              obtain ⟨hpx, hsec⟩ := ih _ _ _ _ _ hrec
              constructor <;> intro p
              · rw [hpx p]
                simp only [setAt, List.mem_cons]
                by_cases hp : p = q <;> by_cases hL : p ∈ L2 <;> simp [hp, hL]
              · rw [hsec p]
                simp only [setAt, List.mem_cons]
                by_cases hp : p = q <;> by_cases hL : p ∈ L2 <;> simp [hp, hL]

/-- Every pixel a flood-fill run pops (and hence paints) is in bounds,
provided the initial worklist is. -/
theorem floodLoop_pops (W H : ℤ) (curr fill : RGB) (secVal : ℤ) :
    ∀ (n : ℕ) (s : BlueprintState) (st : List Pos) (r : Bool)
      (s' : BlueprintState) (L : List Pos),
      (∀ e ∈ st, inBounds W H e) →
      floodLoop W H curr fill secVal n s st = some (r, s', L) →
      ∀ e ∈ L, inBounds W H e := by
  intro n
  induction n with
  | zero => intro s st r s' L _ h; cases h
  | succ n ih =>
      intro s st r s' L hst h
      match st with
      | [] =>
          unfold floodLoop at h
          cases h
          intro e he
          cases he
      | q :: rest =>
          unfold floodLoop at h
          dsimp only at h
          rcases hex : floodExamine W H curr
              { px := setAt s.px q fill, sec := setAt s.sec q secVal } q
              neighborOffsets rest with _ | st1
          · rw [hex] at h
            dsimp only at h
            cases h
            intro e he
            rw [List.mem_singleton] at he
            rw [he]
            exact hst q (List.mem_cons_self q rest)
          · rw [hex] at h
            dsimp only at h
            rcases hrec : floodLoop W H curr fill secVal n
                { px := setAt s.px q fill, sec := setAt s.sec q secVal } st1
              with _ | res
            · rw [hrec] at h
              cases h
            · rw [hrec] at h
              obtain ⟨r2, s2, L2⟩ := res
              dsimp only at h
              cases h
              have hst1 : ∀ e ∈ st1, inBounds W H e :=
                floodExamine_prop W H curr _ q (inBounds W H)
                  (fun np _ a b c d => ⟨a, b, c, d⟩)
                  neighborOffsets rest st1
                  (fun e he => hst e (List.mem_cons_of_mem _ he)) hex
              intro e he
              rcases List.mem_cons.mp he with he | he
              · rw [he]
                exact hst q (List.mem_cons_self q rest)
              · exact ih _ _ _ _ _ hst1 hrec e he

/-- In a forward fill over a painted state, every popped pixel was black
in the pre-fill state `B`, provided the worklist pixels were. -/
theorem floodLoop_pops_black (W H : ℤ) (secVal : ℤ) (B : BlueprintState) :
    ∀ (n : ℕ) (P : List Pos) (st : List Pos) (r : Bool)
      (s' : BlueprintState) (L : List Pos),
      (∀ e ∈ st, B.px e = colBlack) →
      floodLoop W H colBlack colCyan secVal n
          (paintState B colCyan secVal P) st = some (r, s', L) →
      ∀ e ∈ L, B.px e = colBlack := by
  intro n
  induction n with
  | zero => intro P st r s' L _ h; cases h
  | succ n ih =>
      intro P st r s' L hst h
      match st with
      | [] =>
          unfold floodLoop at h
          cases h
          intro e he
          cases he
      | q :: rest =>
          unfold floodLoop at h
          dsimp only at h
          rw [paintState_cons B colCyan secVal P q] at h
          rcases hex : floodExamine W H colBlack
              (paintState B colCyan secVal (q :: P)) q
              neighborOffsets rest with _ | st1
          · rw [hex] at h
            dsimp only at h
            cases h
            intro e he
            rw [List.mem_singleton] at he
            rw [he]
            exact hst q (List.mem_cons_self q rest)
          · rw [hex] at h
            dsimp only at h
            rcases hrec : floodLoop W H colBlack colCyan secVal n
                (paintState B colCyan secVal (q :: P)) st1
              with _ | res
            · rw [hrec] at h
              cases h
            · rw [hrec] at h
              obtain ⟨r2, s2, L2⟩ := res
              dsimp only at h
              cases h
              have hst1 : ∀ e ∈ st1, B.px e = colBlack := by
                refine floodExamine_prop W H colBlack _ q
                  (fun e => B.px e = colBlack) ?_
                  neighborOffsets rest st1
                  (fun e he => hst e (List.mem_cons_of_mem _ he)) hex
                intro np hnp _ _ _ _
                simp only [paintState] at hnp
                by_cases hmem : np ∈ q :: P
                · rw [if_pos hmem] at hnp
                  exact absurd hnp (by decide)
                · rw [if_neg hmem] at hnp
                  exact hnp
              intro e he
              rcases List.mem_cons.mp he with he | he
              · rw [he]
                exact hst q (List.mem_cons_self q rest)
              · exact ih (q :: P) _ _ _ _ hst1 hrec e he

/-- Lockstep neighbour scan: over the same popped pixel `q`, the erase
fill's scan from the filtered worklist returns exactly the forward
fill's scan result filtered to the fill's painted set `S` (and aborts
exactly when the forward scan aborts).  Uses that no neighbour of `q`
was cyan before the fill (the closure of previously completed fills) and
that `S` consists of pre-fill-black pixels. -/
theorem floodExamine_sim (W H : ℤ) (sector : ℤ) (B : BlueprintState)
    (S P' : List Pos) (q : Pos)
    (hSblack : ∀ e ∈ S, B.px e = colBlack) :
    ∀ ds : List Pos,
      (∀ d ∈ ds, B.px (q.1 + d.1, q.2 + d.2) ≠ colCyan) →
      ∀ st : List Pos,
        floodExamine W H colCyan (eraseState B sector S P') q ds
            (st.filter (fun e => decide (e ∈ S))) =
          (floodExamine W H colBlack (paintState B colCyan sector P') q ds
              st).map (fun l => l.filter (fun e => decide (e ∈ S))) := by
  intro ds
  induction ds with
  | nil =>
      intro _ st
      simp [floodExamine]
  | cons d rest ih =>
      intro hnc st
      have hnchead : B.px (q.1 + d.1, q.2 + d.2) ≠ colCyan :=
        hnc d (List.mem_cons_self d rest)
      have hncrest : ∀ e ∈ rest, B.px (q.1 + e.1, q.2 + e.2) ≠ colCyan :=
        fun e he => hnc e (List.mem_cons_of_mem _ he)
      unfold floodExamine
      dsimp only
      by_cases h1 : q.1 + d.1 < 0 ∨ q.1 + d.1 = W ∨ q.2 + d.2 < 0 ∨ q.2 + d.2 = H
      · rw [if_pos h1, if_pos h1]
        rfl
      · rw [if_neg h1, if_neg h1]
        have hpaint : ((paintState B colCyan sector P').px (q.1 + d.1, q.2 + d.2)
            = colBlack) ↔
            (¬ (q.1 + d.1, q.2 + d.2) ∈ P' ∧
              B.px (q.1 + d.1, q.2 + d.2) = colBlack) := by
          simp only [paintState]
          by_cases hp : ((q.1 + d.1, q.2 + d.2) : Pos) ∈ P' <;> simp [hp]
          decide
        have herase : ((eraseState B sector S P').px (q.1 + d.1, q.2 + d.2)
            = colCyan) ↔
            (¬ (q.1 + d.1, q.2 + d.2) ∈ P' ∧ (q.1 + d.1, q.2 + d.2) ∈ S) := by
          simp only [eraseState]
          by_cases hp : ((q.1 + d.1, q.2 + d.2) : Pos) ∈ P' <;>
            by_cases hs : ((q.1 + d.1, q.2 + d.2) : Pos) ∈ S <;>
            simp [hp, hs] <;>
            first | decide | exact hnchead
        by_cases hacc : (paintState B colCyan sector P').px (q.1 + d.1, q.2 + d.2)
            = colBlack ∧ 0 ≤ q.1 + d.1 ∧ 0 ≤ q.2 + d.2 ∧ q.1 + d.1 < W ∧
            q.2 + d.2 < H
        · rw [if_pos hacc]
          by_cases hS : ((q.1 + d.1, q.2 + d.2) : Pos) ∈ S
          · have hacc' : (eraseState B sector S P').px (q.1 + d.1, q.2 + d.2)
                = colCyan ∧ 0 ≤ q.1 + d.1 ∧ 0 ≤ q.2 + d.2 ∧ q.1 + d.1 < W ∧
                q.2 + d.2 < H :=
              ⟨herase.mpr ⟨(hpaint.mp hacc.1).1, hS⟩, hacc.2⟩
            rw [if_pos hacc']
            have hfil : ((q.1 + d.1, q.2 + d.2) :: st).filter
                (fun e => decide (e ∈ S)) =
                ((q.1 + d.1, q.2 + d.2) : Pos) ::
                  st.filter (fun e => decide (e ∈ S)) := by
              simp [hS]
            rw [← hfil]
            exact ih hncrest ((q.1 + d.1, q.2 + d.2) :: st)
          · have hacc' : ¬ ((eraseState B sector S P').px (q.1 + d.1, q.2 + d.2)
                = colCyan ∧ 0 ≤ q.1 + d.1 ∧ 0 ≤ q.2 + d.2 ∧ q.1 + d.1 < W ∧
                q.2 + d.2 < H) := by
              intro hc
              exact hS (herase.mp hc.1).2
            rw [if_neg hacc']
            have hfil : ((q.1 + d.1, q.2 + d.2) :: st).filter
                (fun e => decide (e ∈ S)) =
                st.filter (fun e => decide (e ∈ S)) := by
              simp [hS]
            rw [← hfil]
            exact ih hncrest ((q.1 + d.1, q.2 + d.2) :: st)
        · rw [if_neg hacc]
          have hacc' : ¬ ((eraseState B sector S P').px (q.1 + d.1, q.2 + d.2)
              = colCyan ∧ 0 ≤ q.1 + d.1 ∧ 0 ≤ q.2 + d.2 ∧ q.1 + d.1 < W ∧
              q.2 + d.2 < H) := by
            intro hc
            obtain ⟨hpe, hb⟩ := hc
            obtain ⟨hnp, hs⟩ := herase.mp hpe
            exact hacc ⟨hpaint.mpr ⟨hnp, hSblack _ hs⟩, hb⟩
          rw [if_neg hacc']
          exact ih hncrest st

/-- Lockstep simulation of the aborted forward fill by the erase fill:
if the forward loop from the painted state aborts with pop list `L`, the
erase loop from the matching erase state (worklist filtered to the
painted set `S`) aborts with the same pop list. -/
theorem floodLoop_sim (W H : ℤ) (sector : ℤ) (B : BlueprintState)
    (hclosed : ∀ p d, d ∈ neighborOffsets → B.px p = colBlack →
      B.px (p.1 + d.1, p.2 + d.2) ≠ colCyan)
    (S : List Pos)
    (hSblack : ∀ e ∈ S, B.px e = colBlack) :
    ∀ (n : ℕ) (P st : List Pos) (s' : BlueprintState) (L : List Pos),
      (∀ e ∈ P, e ∈ S) →
      floodLoop W H colBlack colCyan sector n
          (paintState B colCyan sector P) st = some (false, s', L) →
      (∀ e : Pos, e ∈ S ↔ e ∈ P ∨ e ∈ L) →
      ∃ s'' : BlueprintState,
        floodLoop W H colCyan colBlack (-1) n (eraseState B sector S P)
          (st.filter (fun e => decide (e ∈ S))) = some (false, s'', L) := by
  intro n
  induction n with
  | zero => intro P st s' L _ h _; cases h
  | succ n ih =>
      intro P st s' L hPS h hS
      match st with
      | [] =>
          unfold floodLoop at h
          simp at h
      | q :: rest =>
          unfold floodLoop at h
          dsimp only at h
          rw [paintState_cons B colCyan sector P q] at h
          rcases hex : floodExamine W H colBlack
              (paintState B colCyan sector (q :: P)) q
              neighborOffsets rest with _ | st1
          · -- forward scan aborts immediately: L = [q]
            rw [hex] at h
            dsimp only at h
            simp only [Option.some.injEq, Prod.mk.injEq] at h
            obtain ⟨-, heq2, heq3⟩ := h
            subst heq3
            have hqS : q ∈ S := (hS q).mpr (Or.inr (List.mem_singleton.mpr rfl))
            have hnc : ∀ d ∈ neighborOffsets,
                B.px (q.1 + d.1, q.2 + d.2) ≠ colCyan :=
              fun d hd => hclosed q d hd (hSblack q hqS)
            have hexE : floodExamine W H colCyan (eraseState B sector S (q :: P))
                q neighborOffsets (rest.filter (fun e => decide (e ∈ S))) =
                none := by
              have hsim := floodExamine_sim W H sector B S (q :: P) q hSblack
                neighborOffsets hnc rest
              rw [hex] at hsim
              simpa using hsim
            have hfil : (q :: rest).filter (fun e => decide (e ∈ S)) =
                q :: rest.filter (fun e => decide (e ∈ S)) := by
              simp [hqS]
            rw [hfil]
            refine ⟨eraseState B sector S (q :: P), ?_⟩
            unfold floodLoop
            dsimp only
            rw [eraseState_cons, hexE]
          · -- forward scan pushes st1 and recurses
            rw [hex] at h
            dsimp only at h
            rcases hrec : floodLoop W H colBlack colCyan sector n
                (paintState B colCyan sector (q :: P)) st1 with _ | res
            · rw [hrec] at h
              cases h
            · rw [hrec] at h
              obtain ⟨r2, s2, L2⟩ := res
              dsimp only at h
              simp only [Option.some.injEq, Prod.mk.injEq] at h
              obtain ⟨heq1, heq2, heq3⟩ := h
              subst heq3
              rw [heq1] at hrec
              have hqS : q ∈ S := (hS q).mpr (Or.inr (List.mem_cons_self q L2))
              have hPS' : ∀ e ∈ q :: P, e ∈ S := by
                intro e he
                rcases List.mem_cons.mp he with he | he
                · rw [he]; exact hqS
                · exact hPS e he
              have hS' : ∀ e : Pos, e ∈ S ↔ e ∈ q :: P ∨ e ∈ L2 := by
                intro e
                rw [hS e]
                simp only [List.mem_cons]
                tauto
              obtain ⟨s'', hrecE⟩ := ih (q :: P) st1 s2 L2 hPS' hrec hS'
              have hnc : ∀ d ∈ neighborOffsets,
                  B.px (q.1 + d.1, q.2 + d.2) ≠ colCyan :=
                fun d hd => hclosed q d hd (hSblack q hqS)
              have hexE : floodExamine W H colCyan
                  (eraseState B sector S (q :: P)) q neighborOffsets
                  (rest.filter (fun e => decide (e ∈ S))) =
                  some (st1.filter (fun e => decide (e ∈ S))) := by
                have hsim := floodExamine_sim W H sector B S (q :: P) q hSblack
                  neighborOffsets hnc rest
                rw [hex] at hsim
                simpa using hsim
              have hfil : (q :: rest).filter (fun e => decide (e ∈ S)) =
                  q :: rest.filter (fun e => decide (e ∈ S)) := by
                simp [hqS]
              rw [hfil]
              refine ⟨s'', ?_⟩
              unfold floodLoop
              dsimp only
              rw [eraseState_cons, hexE]
              dsimp only
              rw [hrecE]

/-- A loop run started on a nonempty worklist pops its head first. -/
theorem floodLoop_head (W H : ℤ) (curr fill : RGB) (secVal : ℤ) (n : ℕ)
    (s : BlueprintState) (q : Pos) (rest : List Pos) (r : Bool)
    (s' : BlueprintState) (L : List Pos)
    (h : floodLoop W H curr fill secVal n s (q :: rest) = some (r, s', L)) :
    ∃ L', L = q :: L' := by
  match n with
  | 0 => cases h
  | n + 1 =>
      unfold floodLoop at h
      dsimp only at h
      rcases hex : floodExamine W H curr
          { px := setAt s.px q fill, sec := setAt s.sec q secVal } q
          neighborOffsets rest with _ | st1
      · rw [hex] at h
        dsimp only at h
        simp only [Option.some.injEq, Prod.mk.injEq] at h
        exact ⟨[], h.2.2.symm⟩
      · rw [hex] at h
        dsimp only at h
        rcases hrec : floodLoop W H curr fill secVal n
            { px := setAt s.px q fill, sec := setAt s.sec q secVal } st1
          with _ | res
        · rw [hrec] at h
          cases h
        · rw [hrec] at h
          obtain ⟨r2, s2, L2⟩ := res
          dsimp only at h
          simp only [Option.some.injEq, Prod.mk.injEq] at h
          exact ⟨L2, h.2.2.symm⟩

/-- C1: a flood fill started from an in-bounds seed never changes any
pixel or sector-index entry outside the raster bounds; and when the fill
aborts (reaches the border), re-running it with `erase=True` — exactly as
`drawMap` does — terminates (aborting at the same border pixel) and
restores the raster and the sector-index buffer to exactly their state
before the fill attempt.  Hypotheses: before the attempt, no black
(background) pixel is adjacent to a cyan (previously filled) pixel — the
closure property every completed fill leaves behind — and background
pixels carry no sector index. -/
theorem c1_flood_fill_guard (W H : ℤ) (sector : ℤ) (startPix : Pos)
    (fuel : ℕ) (B : BlueprintState)
    (hseed : inBounds W H startPix)
    (hclosed : ∀ p d, d ∈ neighborOffsets → B.px p = colBlack →
      B.px (p.1 + d.1, p.2 + d.2) ≠ colCyan)
    (hsec : ∀ p : Pos, B.px p = colBlack → B.sec p = -1) :
    (∀ (r : Bool) (s' : BlueprintState) (L : List Pos),
      floodFill W H sector startPix false fuel B = some (r, s', L) →
      ∀ p : Pos, ¬ inBounds W H p → s'.px p = B.px p ∧ s'.sec p = B.sec p) ∧
    (∀ (s' : BlueprintState) (L : List Pos),
      floodFill W H sector startPix false fuel B = some (false, s', L) →
      Option.elim (floodFill W H sector startPix true fuel s') False
        (fun res => res.1 = false ∧
          ∀ p : Pos, res.2.1.px p = B.px p ∧ res.2.1.sec p = B.sec p)) := by
  constructor
  · intro r s' L h p hnb
    unfold floodFill at h
    simp only [Bool.false_eq_true, if_false, ite_false] at h
    have hstin : ∀ e ∈ (if B.px startPix = colBlack then [startPix] else []),
        inBounds W H e := by
      split_ifs
      · intro e he
        rw [List.mem_singleton] at he
        rw [he]
        exact hseed
      · intro e he
        cases he
    have hLin := floodLoop_pops W H colBlack colCyan sector fuel B _ r s' L
      hstin h
    have hstate := floodLoop_state W H colBlack colCyan sector fuel B _ r s' L h
    have hpL : p ∉ L := fun hmem => hnb (hLin p hmem)
    constructor
    · rw [hstate.1 p, if_neg hpL]
    · rw [hstate.2 p, if_neg hpL]
  · intro s' L h
    unfold floodFill at h
    simp only [Bool.false_eq_true, if_false, ite_false] at h
    by_cases hst : B.px startPix = colBlack
    swap
    · rw [if_neg hst] at h
      match fuel, h with
      | n + 1, h =>
          unfold floodLoop at h
          simp at h
    · rw [if_pos hst] at h
      -- facts about the forward run
      have hstate := floodLoop_state W H colBlack colCyan sector fuel B
        [startPix] false s' L h
      have hLin := floodLoop_pops W H colBlack colCyan sector fuel B
        [startPix] false s' L
        (by
          intro e he
          rw [List.mem_singleton] at he
          rw [he]
          exact hseed) h
      have hpaintnil := paintState_nil B colCyan sector
      have hLblack : ∀ e ∈ L, B.px e = colBlack := by
        refine floodLoop_pops_black W H sector B fuel [] [startPix] false s' L
          ?_ ?_
        · intro e he
          rw [List.mem_singleton] at he
          rw [he]
          exact hst
        · rw [hpaintnil]
          exact h
      have hseedL : startPix ∈ L := by
        obtain ⟨L', hL'⟩ := floodLoop_head W H colBlack colCyan sector fuel B
          startPix [] false s' L h
        rw [hL']
        exact List.mem_cons_self _ _
      -- the simulation gives the erase run
      have hS : ∀ e : Pos, e ∈ L ↔ e ∈ ([] : List Pos) ∨ e ∈ L := by
        intro e
        simp
      obtain ⟨s'', hrunE⟩ := floodLoop_sim W H sector B hclosed L hLblack fuel
        [] [startPix] s' L (by intro e he; cases he)
        (by rw [hpaintnil]; exact h) hS
      have hfil : ([startPix].filter (fun e => decide (e ∈ L))) = [startPix] := by
        simp [hseedL]
      rw [hfil, eraseState_nil] at hrunE
      -- identify s' with the painted state
      have hs'eq : s' = paintState B colCyan sector L := by
        apply BlueprintState.ext
        · funext p
          exact hstate.1 p
        · funext p
          exact hstate.2 p
      rw [← hs'eq] at hrunE
      -- the erase call seeds from startPix since it is cyan in s'
      have hspx : s'.px startPix = colCyan := by
        rw [hstate.1 startPix, if_pos hseedL]
      have hcall : floodFill W H sector startPix true fuel s' =
          floodLoop W H colCyan colBlack (-1) fuel s' [startPix] := by
        unfold floodFill
        simp only [if_true, ite_true, hspx, if_pos]
      rw [hcall, hrunE]
      -- the restored state
      have hstateE := floodLoop_state W H colCyan colBlack (-1) fuel s'
        [startPix] false s'' L hrunE
      refine ⟨rfl, ?_⟩
      intro p
      dsimp only
      by_cases hpL : p ∈ L
      · constructor
        · rw [hstateE.1 p, if_pos hpL, hLblack p hpL]
        · rw [hstateE.2 p, if_pos hpL, hsec p (hLblack p hpL)]
      · constructor
        · rw [hstateE.1 p, if_neg hpL, hstate.1 p, if_neg hpL]
        · rw [hstateE.2 p, if_neg hpL, hstate.2 p, if_neg hpL]

/-- C1 witness: on the all-black 3×3 raster the fill from (1,1) reaches
the border and aborts; the theorem (applied to that concrete run) shows
the erase re-run also aborts and restores every pixel and sector entry
of the pre-fill state. -/
theorem c1_flood_fill_guard_witness :
    Option.elim (floodFill 3 3 7 (1, 1) true 50 c1S) False
      (fun res => res.1 = false ∧
        ∀ p : Pos, res.2.1.px p = c1B.px p ∧ res.2.1.sec p = c1B.sec p) :=
  (c1_flood_fill_guard 3 3 7 (1, 1) 50 c1B (by decide)
    (fun p d _ _ => by simp only [c1B]; decide)
    (fun p _ => rfl)).2 c1S c1L rfl

end Wad2Pic
